import Mathlib

/-!
# Pipeline executor and job registry of the unix shell

A shallow embedding of `src/jobs.c` (the static job table and `add_job`) and of
`src/executor.c` (`execute_command` and `execute`), followed by the properties
proved about them.

* C strings are the lists of their bytes before the terminating NUL.
* The static variables `jobs` and `job_count` of `jobs.c` are the two fields of
  `JobTable`, threaded explicitly.
* The kernel is a descriptor table per process plus an oracle `Env` that decides
  which system calls succeed and which pids `fork` hands out. `open` and `pipe`
  hand out the lowest free descriptor numbers.
* A child is recorded at the moment it calls `execvp`, with the descriptor table
  it has then; what the program does afterwards is not modelled.
* The shell keeps a record of its own `open`, `close`, `pipe`, `fork`, `waitpid`
  and `add_job` calls. Output (`printf`, `perror`) and the `malloc`/`free` of the
  pid array are left out.
-/

namespace Shell

/-! ## jobs.h / jobs.c -/

/-- A C string: its bytes up to, not including, the terminating NUL. -/
abbrev CString := List Nat

def MAX_JOBS : Nat := 100

def MAX_COMMAND_LEN : Nat := 256

/-- The record `struct job` of jobs.h; `command` is the 256-byte buffer. -/
structure job where
  pid : Int
  job_id : Int
  command : List Nat
  deriving DecidableEq, Repr

/-- A zero-initialised `struct job`, as in static storage. -/
def job.zero : job :=
  { pid := 0, job_id := 0, command := List.replicate MAX_COMMAND_LEN 0 }

/-- The statics of jobs.c: the array `jobs[MAX_JOBS]` and the counter `job_count`. -/
structure JobTable where
  jobs : List job
  job_count : Nat
  deriving DecidableEq, Repr

/-- The job table at program start: zeroed array, `job_count = 0`. -/
def JobTable.initial : JobTable :=
  { jobs := List.replicate MAX_JOBS job.zero, job_count := 0 }

/-- The entries that are in use: `jobs[0 .. job_count-1]`. -/
def JobTable.entries (st : JobTable) : List job :=
  st.jobs.take st.job_count

/-- C `strncpy(dest, src, n)`: the first `n` bytes of `dest` become the bytes of
`src` (cut at its NUL and at `n`), padded with NUL; the rest of `dest` is kept. -/
def strncpy (dest : List Nat) (src : CString) (n : Nat) : List Nat :=
  let s := src.takeWhile (fun b => b != 0)
  (s.take n ++ List.replicate (n - s.length) 0) ++ dest.drop n

/-- What lines 18-21 of jobs.c leave in the slot `jobs[job_count]`. -/
def new_entry (st : JobTable) (pid : Int) (command : CString) : job :=
  let old := st.jobs.getD st.job_count job.zero
  let copied := strncpy old.command command (MAX_COMMAND_LEN - 1)
  { pid := pid
    job_id := (st.job_count : Int) + 1
    command := copied.set (MAX_COMMAND_LEN - 1) 0 }

/-- The function `add_job` of jobs.c: returned value and the statics afterwards. -/
def add_job (st : JobTable) (pid : Int) (command : CString) : Int × JobTable :=
  if st.job_count ≥ MAX_JOBS then
    (-1, st)
  else
    let jobs := st.jobs.set st.job_count (new_entry st pid command)
    let job_count := st.job_count + 1
    ((job_count : Int) - 1, { jobs := jobs, job_count := job_count })

/-- A sequence of `add_job` calls from a given table: the table afterwards. -/
def run_add_jobs (st : JobTable) : List (Int × CString) → JobTable
  | [] => st
  | c :: cs => run_add_jobs (add_job st c.1 c.2).2 cs

/-- How many calls of a sequence of `add_job` calls succeed (return value not -1). -/
def successes (st : JobTable) : List (Int × CString) → Nat
  | [] => 0
  | c :: cs =>
    (if (add_job st c.1 c.2).1 = -1 then 0 else 1) + successes (add_job st c.1 c.2).2 cs

/-! ## The kernel model used by executor.c -/

def EXIT_SUCCESS : Int := 0

def EXIT_FAILURE : Int := 1

def STDIN_FILENO : Int := 0

def STDOUT_FILENO : Int := 1

/-- An open file description, the thing a descriptor refers to. -/
inductive Obj where
  | inherited (n : Nat)
  | inFile (path : CString)
  | outFile (path : CString)
  | pipeRead (k : Nat)
  | pipeWrite (k : Nat)
  deriving DecidableEq, Repr

/-- A per-process descriptor table: position `fd` holds what descriptor `fd`
refers to, `none` when it is not open. -/
abbrev FdTable := List (Option Obj)

/-- What descriptor `fd` refers to; nothing for a negative or unused number. -/
def FdTable.lookup (t : FdTable) (fd : Int) : Option Obj :=
  if fd < 0 then none else t.getD fd.toNat none

/-- Make descriptor `fd` refer to `o` (no effect for a negative number). -/
def FdTable.install (t : FdTable) (fd : Int) (o : Option Obj) : FdTable :=
  if fd < 0 then t
  else (t ++ List.replicate (fd.toNat + 1 - t.length) none).set fd.toNat o

/-- The lowest descriptor number that is not open. -/
def FdTable.lowestFree (t : FdTable) : Nat :=
  t.findIdx (fun e => e.isNone)

/-- The effect of `close(fd)` on a descriptor table. -/
def closeFd (t : FdTable) (fd : Int) : FdTable :=
  match t.lookup fd with
  | none => t
  | some _ => t.install fd none

/-- The effect of `dup2(oldfd, newfd)` on a descriptor table. -/
def dup2 (t : FdTable) (oldfd newfd : Int) : FdTable :=
  match t.lookup oldfd with
  | none => t
  | some o => t.install newfd (some o)

/-- The oracle: which `open` and `pipe` calls succeed, and what `fork` returns in
the parent for each stage (`none`: fork fails with -1, `some p`: child pid `p`). -/
structure Env where
  open_in_ok : Bool
  open_out_ok : Bool
  pipe_ok : Nat → Bool
  fork_pid : Nat → Option Nat

/-- A spawned child at the moment it calls `execvp(file, argv)`, with its
descriptor table at that moment. -/
structure Child where
  pid : Int
  file : Option CString
  argv : List CString
  fds : FdTable
  deriving DecidableEq, Repr

/-- The shell process while `execute` runs: its descriptor table, the job table,
and a record of what it has done so far. -/
structure World where
  fds : FdTable
  reg : JobTable
  opened : List (Int × Obj)
  closed : List (Int × Option Obj)
  pipes : List (Int × Int)
  children : List Child
  waited : List Int
  registered : List (Int × CString)
  deriving DecidableEq, Repr

/-- The shell before a call of `execute`, with nothing recorded yet. -/
def World.start (fds : FdTable) (reg : JobTable) : World :=
  { fds := fds, reg := reg, opened := [], closed := [], pipes := [], children := [],
    waited := [], registered := [] }

/-- A successful `open` returning the lowest free descriptor, referring to `o`. -/
def sys_open (w : World) (o : Obj) : Int × World :=
  let fd : Int := (w.fds.lowestFree : Int)
  (fd, { w with fds := w.fds.install fd (some o), opened := w.opened ++ [(fd, o)] })

/-- The parent calling `close(fd)`; the record keeps what `fd` referred to. -/
def sys_close (w : World) (fd : Int) : World :=
  { w with fds := closeFd w.fds fd, closed := w.closed ++ [(fd, w.fds.lookup fd)] }

/-- A successful `pipe(pipefd)` for the `k`-th pipe: read end, then write end. -/
def sys_pipe (w : World) (k : Nat) : (Int × Int) × World :=
  let r := sys_open w (Obj.pipeRead k)
  let wr := sys_open r.2 (Obj.pipeWrite k)
  ((r.1, wr.1), { wr.2 with pipes := wr.2.pipes ++ [(r.1, wr.1)] })

/-- The parent calling `waitpid(pid, NULL, 0)`. -/
def sys_waitpid (w : World) (pid : Int) : World :=
  { w with waited := w.waited ++ [pid] }

/-- The parent calling `add_job(pid, command)`, its return value dropped as both
call sites in `execute` do. -/
def call_add_job (w : World) (pid : Int) (command : CString) : World :=
  { w with reg := (add_job w.reg pid command).2,
           registered := w.registered ++ [(pid, command)] }

/-! ## executor.c -/

/-- Modelled from the spec: `struct cmdline` of parser.h, which is not among the
sources: the stages (each an argv), the optional input and output paths, and the
background flag. -/
structure cmdline where
  seq : List (List CString)
  in_ : Option CString
  out : Option CString
  bg : Bool
  deriving DecidableEq, Repr

/-- The child branch of `execute_command`: redirect, then `execvp`. -/
def execute_command_child (t : FdTable) (in_fd out_fd : Int) : FdTable :=
  let t1 := if in_fd ≠ -1 then closeFd (dup2 t in_fd STDIN_FILENO) in_fd else t
  if out_fd ≠ -1 then closeFd (dup2 t1 out_fd STDOUT_FILENO) out_fd else t1

/-- The function `execute_command`: fork, the child redirects and execs, the
parent gets the pid (or -1). -/
def execute_command (env : Env) (w : World) (cmd : Option CString) (args : List CString)
    (in_fd out_fd : Int) : Int × World :=
  match env.fork_pid 0 with
  | none => (-1, w)
  | some p =>
    ((p : Int),
      { w with children := w.children ++
          [{ pid := (p : Int), file := cmd, argv := args,
             fds := execute_command_child w.fds in_fd out_fd }] })

/-- The child branch inside the loop of `execute` (lines 191-215); `notLast` is the
test `i < num_cmds - 1`. -/
def pipeline_child (t : FdTable) (prev_pipe_read : Int) (notLast : Bool)
    (pipefd : Int × Int) (out_fd : Int) : FdTable :=
  let t1 :=
    if prev_pipe_read ≠ -1 then closeFd (dup2 t prev_pipe_read STDIN_FILENO) prev_pipe_read
    else t
  if notLast then
    closeFd (closeFd (dup2 t1 pipefd.2 STDOUT_FILENO) pipefd.1) pipefd.2
  else if out_fd ≠ -1 then
    closeFd (dup2 t1 out_fd STDOUT_FILENO) out_fd
  else t1

/-- Closing `prev_pipe_read` under the guard used three times in `execute`. -/
def close_prev (w : World) (prev_pipe_read in_fd : Int) : World :=
  if prev_pipe_read ≠ -1 ∧ prev_pipe_read ≠ in_fd then sys_close w prev_pipe_read else w

/-- What one pass through the loop body of `execute` ends in. -/
inductive Step where
  | failed (w : World)
  | next (prev_pipe_read : Int) (pids : List Int) (w : World)

/-- One pass through the body of the loop `for (i = 0; i < num_cmds; i++)`. The
test `i < num_cmds - 1` is written `i + 1 < num_cmds`; `pipefd` is never read when
no pipe was created, and stands as `(-1, -1)` then. -/
def loop_body (env : Env) (l : cmdline) (num_cmds : Nat) (in_fd out_fd : Int)
    (i : Nat) (prev_pipe_read : Int) (pids : List Int) (w : World) : Step :=
  if i + 1 < num_cmds ∧ env.pipe_ok i = false then
    -- pipe(pipefd) < 0
    Step.failed (close_prev w prev_pipe_read in_fd)
  else
    let pipe_created : Bool := decide (i + 1 < num_cmds)
    let p := if pipe_created then sys_pipe w i else ((-1, -1), w)
    let pipefd := p.1
    let w1 := p.2
    match env.fork_pid i with
    | none =>
      let w2 := if pipe_created then sys_close (sys_close w1 pipefd.1) pipefd.2 else w1
      Step.failed (close_prev w2 prev_pipe_read in_fd)
    | some pid =>
      let child : Child :=
        { pid := (pid : Int)
          file := (l.seq.getD i []).head?
          argv := l.seq.getD i []
          fds := pipeline_child w1.fds prev_pipe_read pipe_created pipefd out_fd }
      let w2 := { w1 with children := w1.children ++ [child] }
      let w3 := close_prev w2 prev_pipe_read in_fd
      if pipe_created then
        Step.next pipefd.1 (pids ++ [(pid : Int)]) (sys_close w3 pipefd.2)
      else
        Step.next prev_pipe_read (pids ++ [(pid : Int)]) w3

/-- The loop of `execute`, with `remaining = num_cmds - i` passes still to make;
`none` stands for the `return EXIT_FAILURE` inside the loop. -/
def pipeline_loop (env : Env) (l : cmdline) (num_cmds : Nat) (in_fd out_fd : Int) :
    Nat → Nat → Int → List Int → World → Option (List Int) × World
  | 0, _, _, pids, w => (some pids, w)
  | remaining + 1, i, prev_pipe_read, pids, w =>
    match loop_body env l num_cmds in_fd out_fd i prev_pipe_read pids w with
    | Step.failed w1 => (none, w1)
    | Step.next prev1 pids1 w1 =>
      pipeline_loop env l num_cmds in_fd out_fd remaining (i + 1) prev1 pids1 w1

/-- The loop `for (i = 0; i < num_cmds; i++) waitpid(pids[i], NULL, 0)`. -/
def wait_all (w : World) : List Int → World
  | [] => w
  | pid :: rest => wait_all (sys_waitpid w pid) rest

/-- Closing a redirection descriptor under the guard `fd != -1`. -/
def close_if_open (w : World) (fd : Int) : World :=
  if fd ≠ -1 then sys_close w fd else w

/-- The function `execute` from line 134 on, once both redirections are resolved. -/
def execute_resolved (env : Env) (l : cmdline) (in_fd out_fd : Int) (w : World) :
    Int × World :=
  let num_cmds := l.seq.length
  if num_cmds = 1 then
    let cmd := l.seq.getD 0 []
    let r := execute_command env w cmd.head? cmd in_fd out_fd
    let pid := r.1
    let w1 := close_if_open (close_if_open r.2 in_fd) out_fd
    if pid < 0 then (EXIT_FAILURE, w1)
    else if l.bg = false then (EXIT_SUCCESS, sys_waitpid w1 pid)
    else (EXIT_SUCCESS, call_add_job w1 pid (cmd.headD []))
  else
    match pipeline_loop env l num_cmds in_fd out_fd num_cmds 0 in_fd [] w with
    | (none, w1) => (EXIT_FAILURE, w1)
    | (some pids, w1) =>
      let w2 := close_if_open (close_if_open w1 in_fd) out_fd
      if l.bg = false then (EXIT_SUCCESS, wait_all w2 pids)
      else (EXIT_SUCCESS, call_add_job w2 (pids.headD 0) ((l.seq.getD 0 []).headD []))

/-- The function `execute` of executor.c: exit status and the shell afterwards. -/
def execute (env : Env) (l : cmdline) (w : World) : Int × World :=
  if l.seq = [] then (EXIT_SUCCESS, w)
  else
    -- if (l->in) in_fd = open(l->in, O_RDONLY)
    match l.in_, env.open_in_ok with
    | some _, false => (EXIT_FAILURE, w)
    | inp, _ =>
      let a : Int × World :=
        match inp with
        | some path => sys_open w (Obj.inFile path)
        | none => (-1, w)
      let in_fd := a.1
      -- if (l->out) out_fd = open(l->out, O_WRONLY | O_CREAT | O_TRUNC, 0644)
      match l.out, env.open_out_ok with
      | some _, false => (EXIT_FAILURE, close_if_open a.2 in_fd)
      | outp, _ =>
        let b : Int × World :=
          match outp with
          | some path => sys_open a.2 (Obj.outFile path)
          | none => (-1, a.2)
        execute_resolved env l in_fd b.1 b.2

/-- A job table filled by one hundred registrations from program start. -/
def full_table : JobTable :=
  run_add_jobs JobTable.initial (List.replicate 100 (7, [106]))

/-- The descriptions of both ends of the first `i` pipes, in creation order. -/
def pipeObjs : Nat → List Obj
  | 0 => []
  | k + 1 => pipeObjs k ++ [Obj.pipeRead k, Obj.pipeWrite k]

/-- The descriptor table a correctly wired child of stage `j` (of `n`) has at
`execvp`, in terms of the parent table `T0` that holds the resolved redirections. -/
def child_view (T0 : FdTable) (in_fd out_fd : Int) (n j : Nat) (fd : Int) : Option Obj :=
  if fd = 0 then
    if j = 0 then (if in_fd ≠ -1 then T0.lookup in_fd else T0.lookup 0)
    else some (Obj.pipeRead (j - 1))
  else if fd = 1 then
    if j + 1 < n then some (Obj.pipeWrite j)
    else if out_fd ≠ -1 then T0.lookup out_fd else T0.lookup 1
  else if j = 0 ∧ fd = in_fd then none
  else if j + 1 = n ∧ fd = out_fd then none
  else T0.lookup fd

/-- Descriptors 0 and 1 are open in the parent and are not the redirection files. -/
def StdOpen (T0 : FdTable) (in_fd out_fd : Int) : Prop :=
  T0.lookup 0 ≠ none ∧ T0.lookup 1 ≠ none ∧
    in_fd ≠ 0 ∧ in_fd ≠ 1 ∧ out_fd ≠ 0 ∧ out_fd ≠ 1

/-- What is known of the child spawned for stage `j`. -/
def ChildSpec (env : Env) (l : cmdline) (T0 : FdTable) (in_fd out_fd : Int) (n j : Nat)
    (c : Child) : Prop :=
  (∃ p, env.fork_pid j = some p ∧ c.pid = (p : Int)) ∧
  c.argv = l.seq.getD j [] ∧
  c.file = (l.seq.getD j []).head? ∧
  (StdOpen T0 in_fd out_fd → ∀ fd, c.fds.lookup fd = child_view T0 in_fd out_fd n j fd)

/-- The state of the parent at the top of pass `i` of the loop of `execute`. -/
structure LoopInv (env : Env) (l : cmdline) (T0 : FdTable) (in_fd out_fd : Int) (n : Nat)
    (redirs : List Obj) (i : Nat) (prev : Int) (pids : List Int) (w : World) : Prop where
  tbl : ∀ fd, w.fds.lookup fd =
    if 0 < i ∧ fd = prev then some (Obj.pipeRead (i - 1)) else T0.lookup fd
  prev_zero : i = 0 → prev = in_fd
  prev_pos : 0 < i → 0 ≤ prev ∧ T0.lookup prev = none
  opened : w.opened.map Prod.snd = redirs ++ pipeObjs i
  closed : (w.closed.map Prod.snd ++ (if 0 < i then [some (Obj.pipeRead (i - 1))] else [])).Perm
    ((pipeObjs i).map some)
  pipes : w.pipes.length = i
  kids : w.children.length = i
  pids_eq : pids = w.children.map Child.pid
  kid : ∀ j c, w.children.get? j = some c → ChildSpec env l T0 in_fd out_fd n j c

/-- The state of the parent when the loop of `execute` has made all `n` passes. -/
structure LoopPost (env : Env) (l : cmdline) (T0 : FdTable) (in_fd out_fd : Int) (n : Nat)
    (redirs : List Obj) (pids : List Int) (w : World) : Prop where
  tbl : ∀ fd, w.fds.lookup fd = T0.lookup fd
  opened : w.opened.map Prod.snd = redirs ++ pipeObjs (n - 1)
  closed : (w.closed.map Prod.snd).Perm ((pipeObjs (n - 1)).map some)
  pipes : w.pipes.length = n - 1
  kids : w.children.length = n
  pids_eq : pids = w.children.map Child.pid
  kid : ∀ j c, w.children.get? j = some c → ChildSpec env l T0 in_fd out_fd n j c

/-- The second world has the job table and the wait and registration records of
the first. -/
def SameJobs (w w2 : World) : Prop :=
  w2.reg = w.reg ∧ w2.waited = w.waited ∧ w2.registered = w.registered

/-- The world a pass through the loop body ends in. -/
def Step.world : Step → World
  | Step.failed w => w
  | Step.next _ _ w => w

/-- The redirection files `execute` opens for a command line, in opening order. -/
def redirObjs (l : cmdline) : List Obj :=
  (match l.in_ with
    | some path => [Obj.inFile path]
    | none => []) ++
  (match l.out with
    | some path => [Obj.outFile path]
    | none => [])

/-- The state of `execute` at line 134, both redirections resolved, when it was
called with descriptor table `init` and job table `reg`. -/
structure Resolved (init : FdTable) (reg : JobTable) (l : cmdline) (in_fd out_fd : Int)
    (W : World) : Prop where
  in_none : l.in_ = none → in_fd = -1
  in_some : ∀ path, l.in_ = some path →
    0 ≤ in_fd ∧ init.lookup in_fd = none ∧ W.fds.lookup in_fd = some (Obj.inFile path)
  out_none : l.out = none → out_fd = -1
  out_some : ∀ path, l.out = some path →
    0 ≤ out_fd ∧ init.lookup out_fd = none ∧ W.fds.lookup out_fd = some (Obj.outFile path) ∧
      out_fd ≠ in_fd
  tbl : ∀ fd, fd ≠ in_fd → fd ≠ out_fd → W.fds.lookup fd = init.lookup fd
  opened : W.opened.map Prod.snd = redirObjs l
  closed : W.closed = []
  pipes : W.pipes = []
  children : W.children = []
  jobs : SameJobs (World.start init reg) W

/-- The shell when `execute` has returned success, in terms of the descriptor
table `init` and job table `reg` it was called with; `T0` is the table holding the
resolved redirections. -/
structure ExecPost (env : Env) (l : cmdline) (init : FdTable) (reg : JobTable) (T0 : FdTable)
    (in_fd out_fd : Int) (w : World) : Prop where
  tbl : ∀ fd, w.fds.lookup fd = init.lookup fd
  opened : w.opened.map Prod.snd = redirObjs l ++ pipeObjs (l.seq.length - 1)
  closed : (w.closed.map Prod.snd).Perm (w.opened.map (fun e => some e.2))
  pipes : w.pipes.length = l.seq.length - 1
  kids : w.children.length = l.seq.length
  kid : ∀ j c, w.children.get? j = some c → ChildSpec env l T0 in_fd out_fd l.seq.length j c
  fg : l.bg = false →
    w.waited = w.children.map Child.pid ∧ w.registered = [] ∧ w.reg = reg
  bg : l.bg = true →
    w.waited = [] ∧
    w.registered = [((w.children.map Child.pid).headD 0, (l.seq.getD 0 []).headD [])] ∧
    w.reg = (add_job reg ((w.children.map Child.pid).headD 0) ((l.seq.getD 0 []).headD [])).2
  oracle : ∀ j, j < l.seq.length →
    (j + 1 < l.seq.length → env.pipe_ok j = true) ∧ env.fork_pid j ≠ none

/-- Some system call that `execute` makes for this command line fails. -/
def SyscallFails (env : Env) (l : cmdline) : Prop :=
  (l.in_ ≠ none ∧ env.open_in_ok = false) ∨ (l.out ≠ none ∧ env.open_out_ok = false) ∨
  ∃ j, j < l.seq.length ∧
    ((j + 1 < l.seq.length ∧ env.pipe_ok j = false) ∨ env.fork_pid j = none)

/-- Every system call that `execute` makes for this command line succeeds. -/
def SyscallsSucceed (env : Env) (l : cmdline) : Prop :=
  (l.in_ ≠ none → env.open_in_ok = true) ∧ (l.out ≠ none → env.open_out_ok = true) ∧
  (∀ j, j + 1 < l.seq.length → env.pipe_ok j = true) ∧
  (∀ j, j < l.seq.length → env.fork_pid j ≠ none)

/-! ## Concrete shells and command lines -/

/-- A shell with the three standard streams open and nothing else. -/
def std_fds : FdTable :=
  [some (Obj.inherited 0), some (Obj.inherited 1), some (Obj.inherited 2)]

/-- An environment in which every call succeeds; stage `i` gets pid `100 + i`. -/
def env_ok : Env :=
  { open_in_ok := true, open_out_ok := true, pipe_ok := fun _ => true,
    fork_pid := fun i => some (100 + i) }

/-- An environment in which `pipe` fails and everything else succeeds. -/
def env_pipe_fails : Env :=
  { open_in_ok := true, open_out_ok := true, pipe_ok := fun _ => false,
    fork_pid := fun i => some (100 + i) }

/-- The bytes of "cat". -/
def s_cat : CString := [99, 97, 116]

/-- The bytes of "wc". -/
def s_wc : CString := [119, 99]

/-- The bytes of "sort". -/
def s_sort : CString := [115, 111, 114, 116]

/-- The bytes of "in.txt". -/
def s_in_txt : CString := [105, 110, 46, 116, 120, 116]

/-- The bytes of "out.txt". -/
def s_out_txt : CString := [111, 117, 116, 46, 116, 120, 116]

/-- Two registrations: pid 41 as "cat", pid 42 as "sort". -/
def two_calls : List (Int × CString) := [(41, s_cat), (42, s_sort)]

/-- The command line `cat | wc`. -/
def cat_wc : cmdline :=
  { seq := [[s_cat], [s_wc]], in_ := none, out := none, bg := false }

/-- The command line `cat < in.txt | wc`. -/
def cat_wc_in : cmdline :=
  { seq := [[s_cat], [s_wc]], in_ := some s_in_txt, out := none, bg := false }

/-- The command line `cat < in.txt | sort | wc > out.txt`. -/
def cat_sort_wc : cmdline :=
  { seq := [[s_cat], [s_sort], [s_wc]], in_ := some s_in_txt, out := some s_out_txt,
    bg := false }

/-- The command line `cat < in.txt > out.txt`. -/
def cat_in_out : cmdline :=
  { seq := [[s_cat]], in_ := some s_in_txt, out := some s_out_txt, bg := false }

/-- The command line `cat | wc &`. -/
def cat_wc_bg : cmdline :=
  { seq := [[s_cat], [s_wc]], in_ := none, out := none, bg := true }

/-- The command line `cat > out.txt`. -/
def cat_out : cmdline :=
  { seq := [[s_cat]], in_ := none, out := some s_out_txt, bg := false }

/-- A shell started with its standard output closed (`./shell >&-`): descriptors
0 and 2 are open, 1 is not. -/
def fds_stdout_closed : FdTable :=
  [some (Obj.inherited 0), none, some (Obj.inherited 2)]

/-- An environment in which the fork for stage 1 fails and everything else succeeds. -/
def env_fork_fails : Env :=
  { open_in_ok := true, open_out_ok := true, pipe_ok := fun _ => true,
    fork_pid := fun i => if i = 1 then none else some (100 + i) }

/-- No descriptor of the table refers to an end of a pipe of this call. -/
def NoPipeEnds (t : FdTable) : Prop :=
  ∀ fd k, t.lookup fd ≠ some (Obj.pipeRead k) ∧ t.lookup fd ≠ some (Obj.pipeWrite k)

/-! ## The job registry: lemmas -/

theorem take_succ_set {α : Type} (l : List α) (n : Nat) (a : α) (h : n < l.length) :
    (l.set n a).take (n + 1) = l.take n ++ [a] := by
  induction l generalizing n with
  | nil => simp at h
  | cons x xs ih =>
    cases n with
    | zero => simp
    | succ m =>
      simp only [List.length_cons, Nat.add_lt_add_iff_right] at h
      simp [List.set, ih m h]

theorem add_job_fst_of_lt (st : JobTable) (pid : Int) (command : CString)
    (h : st.job_count < MAX_JOBS) : (add_job st pid command).1 = (st.job_count : Int) := by
  have h2 : ¬ (st.job_count ≥ MAX_JOBS) := Nat.not_le.mpr h
  simp [add_job, h2]

theorem add_job_fst_of_ge (st : JobTable) (pid : Int) (command : CString)
    (h : MAX_JOBS ≤ st.job_count) : add_job st pid command = (-1, st) := by
  simp [add_job, h]

theorem add_job_fst_ne_iff (st : JobTable) (pid : Int) (command : CString) :
    (add_job st pid command).1 ≠ -1 ↔ st.job_count < MAX_JOBS := by
  constructor
  · intro h
    by_contra hc
    exact h (by rw [add_job_fst_of_ge st pid command (Nat.not_lt.mp hc)])
  · intro h
    rw [add_job_fst_of_lt st pid command h]
    omega

theorem add_job_count_of_lt (st : JobTable) (pid : Int) (command : CString)
    (h : st.job_count < MAX_JOBS) : (add_job st pid command).2.job_count = st.job_count + 1 := by
  have h2 : ¬ (st.job_count ≥ MAX_JOBS) := Nat.not_le.mpr h
  simp [add_job, h2]

theorem add_job_length (st : JobTable) (pid : Int) (command : CString) :
    (add_job st pid command).2.jobs.length = st.jobs.length := by
  unfold add_job
  split <;> simp

theorem add_job_entries_of_lt (st : JobTable) (pid : Int) (command : CString)
    (hlen : st.jobs.length = MAX_JOBS) (h : st.job_count < MAX_JOBS) :
    (add_job st pid command).2.entries = st.entries ++ [new_entry st pid command] := by
  have h2 : ¬ (st.job_count ≥ MAX_JOBS) := Nat.not_le.mpr h
  simp only [add_job, h2, if_false, JobTable.entries]
  exact take_succ_set _ _ _ (by omega)

theorem run_add_jobs_spec (calls : List (Int × CString)) :
    ∀ st : JobTable, st.jobs.length = MAX_JOBS → st.job_count ≤ MAX_JOBS →
      (run_add_jobs st calls).jobs.length = MAX_JOBS ∧
      (run_add_jobs st calls).job_count ≤ MAX_JOBS ∧
      (run_add_jobs st calls).job_count = st.job_count + successes st calls := by
  induction calls with
  | nil => intro st h1 h2; simp [run_add_jobs, successes, h1, h2]
  | cons c cs ih =>
    intro st h1 h2
    simp only [run_add_jobs, successes]
    by_cases hlt : st.job_count < MAX_JOBS
    · have hc := add_job_count_of_lt st c.1 c.2 hlt
      have hl := add_job_length st c.1 c.2
      obtain ⟨a, b, d⟩ := ih (add_job st c.1 c.2).2 (by rw [hl, h1]) (by rw [hc]; omega)
      refine ⟨a, b, ?_⟩
      have hne := (add_job_fst_ne_iff st c.1 c.2).mpr hlt
      rw [d, hc, if_neg hne]; omega
    · have hge := Nat.not_lt.mp hlt
      have he := add_job_fst_of_ge st c.1 c.2 hge
      obtain ⟨a, b, d⟩ := ih st h1 h2
      rw [he]
      refine ⟨a, b, ?_⟩
      rw [d]; simp

/-! ## The job registry: properties -/

/-- C2: in any sequence of `add_job` calls from the empty registry, a call that
succeeds is the k-th success for `k = successes + 1` with `1 ≤ k ≤ 100`; the table
held `k - 1` entries before it, holds the same entries followed by one new entry
afterwards, and the new entry has `job_id = k` and the pid that was passed. -/
theorem add_job_kth_registration (calls : List (Int × CString)) (pid : Int) (command : CString)
    (hok : (add_job (run_add_jobs JobTable.initial calls) pid command).1 ≠ -1) :
    1 ≤ successes JobTable.initial calls + 1 ∧
    successes JobTable.initial calls + 1 ≤ 100 ∧
    (run_add_jobs JobTable.initial calls).entries.length = successes JobTable.initial calls ∧
    (add_job (run_add_jobs JobTable.initial calls) pid command).2.entries =
      (run_add_jobs JobTable.initial calls).entries ++
        [new_entry (run_add_jobs JobTable.initial calls) pid command] ∧
    (new_entry (run_add_jobs JobTable.initial calls) pid command).job_id =
      ((successes JobTable.initial calls + 1 : Nat) : Int) ∧
    (new_entry (run_add_jobs JobTable.initial calls) pid command).pid = pid := by
  have hinit : JobTable.initial.jobs.length = MAX_JOBS := by simp [JobTable.initial]
  obtain ⟨hlen, hle, hcount⟩ := run_add_jobs_spec calls JobTable.initial hinit (Nat.zero_le _)
  have hlt := (add_job_fst_ne_iff _ pid command).mp hok
  have h0 : JobTable.initial.job_count = 0 := rfl
  rw [h0, Nat.zero_add] at hcount
  have hM : MAX_JOBS = 100 := rfl
  refine ⟨by omega, by omega, ?_, add_job_entries_of_lt _ pid command hlen hlt, ?_, rfl⟩
  · simp only [JobTable.entries, List.length_take, hlen, hcount]
    omega
  · simp only [new_entry, hcount]
    push_cast
    rfl

theorem add_job_kth_registration_witness :
    (add_job (run_add_jobs JobTable.initial two_calls) 43 s_wc).1 ≠ -1 ∧
    (new_entry (run_add_jobs JobTable.initial two_calls) 43 s_wc).job_id
      = ((successes JobTable.initial two_calls + 1 : Nat) : Int) ∧
    (new_entry (run_add_jobs JobTable.initial two_calls) 43 s_wc).job_id = 3 :=
  ⟨by decide,
    (add_job_kth_registration two_calls 43 s_wc (by decide)).2.2.2.2.1,
    by decide⟩

/-- C3: when the registry holds `MAX_JOBS = 100` entries, `add_job` returns -1 for
every pid and name and leaves the statics as they were: the table afterwards is
the table before, with the same 100 entries. -/
theorem add_job_full_registry (st : JobTable) (pid : Int) (command : CString)
    (hlen : st.jobs.length = MAX_JOBS) (hfull : st.job_count = MAX_JOBS) :
    MAX_JOBS = 100 ∧
    (add_job st pid command).1 = -1 ∧
    (add_job st pid command).2 = st ∧
    (add_job st pid command).2.entries = st.entries ∧
    (add_job st pid command).2.entries.length = 100 := by
  have h := add_job_fst_of_ge st pid command (Nat.le_of_eq hfull.symm)
  rw [h]
  refine ⟨rfl, rfl, rfl, rfl, ?_⟩
  simp [JobTable.entries, hlen, hfull, MAX_JOBS]

set_option maxRecDepth 100000 in
theorem add_job_full_registry_witness :
    full_table.jobs.length = MAX_JOBS ∧ full_table.job_count = MAX_JOBS ∧
    (add_job full_table 8 [120]).1 = -1 ∧ (add_job full_table 8 [120]).2 = full_table :=
  ⟨by decide, by decide,
    (add_job_full_registry full_table 8 [120] (by decide) (by decide)).2.1,
    (add_job_full_registry full_table 8 [120] (by decide) (by decide)).2.2.1⟩

/-- C4, as stated, fails: the first registration returns 0 while the entry it
appends has `job_id = 1`. -/
theorem add_job_returns_index_not_id :
    (add_job JobTable.initial 5 s_cat).1 ≠ -1 ∧
    (add_job JobTable.initial 5 s_cat).1 = 0 ∧
    (add_job JobTable.initial 5 s_cat).2.entries.map job.job_id = [1] ∧
    (add_job JobTable.initial 5 s_cat).2.entries.getLast?.map job.job_id
      ≠ some (add_job JobTable.initial 5 s_cat).1 := by
  decide

/-- C4, amended: a successful `add_job` returns the zero-based index of the entry
it has just appended, which is that entry's `job_id` minus one (so 0 for the first
registration). -/
theorem add_job_returns_index (st : JobTable) (pid : Int) (command : CString)
    (hlen : st.jobs.length = MAX_JOBS) (hok : (add_job st pid command).1 ≠ -1) :
    (add_job st pid command).1 = (new_entry st pid command).job_id - 1 ∧
    0 ≤ (add_job st pid command).1 ∧
    (add_job st pid command).2.jobs.get? (add_job st pid command).1.toNat
      = some (new_entry st pid command) ∧
    (add_job st pid command).2.entries.getLast? = some (new_entry st pid command) := by
  have hlt := (add_job_fst_ne_iff st pid command).mp hok
  have hr := add_job_fst_of_lt st pid command hlt
  have he := add_job_entries_of_lt st pid command hlen hlt
  have h2 : ¬ (st.job_count ≥ MAX_JOBS) := Nat.not_le.mpr hlt
  refine ⟨?_, ?_, ?_, ?_⟩
  · rw [hr]; simp [new_entry]
  · rw [hr]; omega
  · rw [hr]
    simp only [add_job, h2, if_false, Int.toNat_ofNat]
    rw [List.get?_eq_getElem?, List.getElem?_set_self]
    omega
  · rw [he]; simp

theorem add_job_returns_index_witness :
    JobTable.initial.jobs.length = MAX_JOBS ∧
    (add_job JobTable.initial 5 s_cat).1 ≠ -1 ∧
    (add_job JobTable.initial 5 s_cat).1 = (new_entry JobTable.initial 5 s_cat).job_id - 1 :=
  ⟨by decide, by decide,
    (add_job_returns_index JobTable.initial 5 s_cat (by decide) (by decide)).1⟩

/-! ## Descriptor tables: lemmas -/

theorem getD_pad_set (t : FdTable) (n m : Nat) (o : Option Obj) :
    ((t ++ List.replicate (n + 1 - t.length) none).set n o).getD m none
      = if m = n then o else t.getD m none := by
  simp only [List.getD_eq_getElem?_getD, List.getElem?_set]
  by_cases h : n = m
  · subst h
    have : n < (t ++ List.replicate (n + 1 - t.length) none).length := by
      simp only [List.length_append, List.length_replicate]; omega
    have h3 : n < t.length + (n + 1 - t.length) := by omega
    simp [h3]
  · have h2 : ¬ m = n := fun e => h e.symm
    simp only [h, h2, if_false]
    by_cases hm : m < t.length
    · rw [List.getElem?_append_left hm]
    · have hm2 : t.length ≤ m := Nat.not_lt.mp hm
      rw [List.getElem?_append_right hm2, List.getElem?_eq_none hm2]
      simp only [List.getElem?_replicate]
      split <;> rfl

theorem lookup_neg (t : FdTable) (fd : Int) (h : fd < 0) : t.lookup fd = none := by
  simp [FdTable.lookup, h]

theorem lookup_install (t : FdTable) (fd fd2 : Int) (o : Option Obj) (h : 0 ≤ fd) :
    (t.install fd o).lookup fd2 = if fd2 = fd then o else t.lookup fd2 := by
  have hn : ¬ fd < 0 := not_lt.mpr h
  simp only [FdTable.install, hn, if_false, FdTable.lookup]
  by_cases h2 : fd2 < 0
  · have : ¬ fd2 = fd := by omega
    simp [h2, this]
  · simp only [h2, if_false, getD_pad_set]
    have : fd2.toNat = fd.toNat ↔ fd2 = fd := by omega
    simp only [this]

theorem lookup_lowestFree (t : FdTable) : t.lookup (t.lowestFree : Int) = none := by
  simp only [FdTable.lookup, FdTable.lowestFree, Int.toNat_ofNat]
  have hn : ¬ ((List.findIdx (fun e => e.isNone) t : Nat) : Int) < 0 := by omega
  rw [if_neg hn, List.getD_eq_getElem?_getD]
  by_cases h : List.findIdx (fun e => e.isNone) t < t.length
  · rw [List.getElem?_eq_getElem h]
    have := List.findIdx_getElem (w := h)
    simpa using this
  · rw [List.getElem?_eq_none (Nat.not_lt.mp h)]
    rfl

theorem lookup_closeFd (t : FdTable) (fd fd2 : Int) :
    (closeFd t fd).lookup fd2 = if fd2 = fd then none else t.lookup fd2 := by
  unfold closeFd
  cases h : t.lookup fd with
  | none =>
    by_cases e : fd2 = fd
    · simp [e, h]
    · simp [e]
  | some o =>
    have h0 : 0 ≤ fd := by
      by_contra hc
      rw [lookup_neg t fd (by omega)] at h
      cases h
    simp only [lookup_install t fd fd2 none h0]

theorem lookup_dup2 (t : FdTable) (oldfd newfd fd2 : Int) (h : 0 ≤ newfd) :
    (dup2 t oldfd newfd).lookup fd2 =
      if t.lookup oldfd = none then t.lookup fd2
      else if fd2 = newfd then t.lookup oldfd else t.lookup fd2 := by
  unfold dup2
  cases ho : t.lookup oldfd with
  | none => simp
  | some o => simp [lookup_install t newfd fd2 (some o) h]

/-! ## The loop of execute: lemmas -/

theorem loop_body_next (env : Env) (l : cmdline) (n : Nat) (in_fd out_fd : Int)
    (i : Nat) (prev : Int) (pids : List Int) (w : World) (p : Nat)
    (hi : i + 1 < n) (hp : env.pipe_ok i = true) (hf : env.fork_pid i = some p) :
    loop_body env l n in_fd out_fd i prev pids w =
      Step.next (sys_pipe w i).1.1 (pids ++ [(p : Int)])
        (sys_close
          (close_prev
            { (sys_pipe w i).2 with
              children := (sys_pipe w i).2.children ++
                [{ pid := (p : Int), file := (l.seq.getD i []).head?, argv := l.seq.getD i [],
                   fds := pipeline_child (sys_pipe w i).2.fds prev true (sys_pipe w i).1 out_fd }] }
            prev in_fd)
          (sys_pipe w i).1.2) := by
  simp [loop_body, hi, hp, hf]

theorem loop_body_last (env : Env) (l : cmdline) (n : Nat) (in_fd out_fd : Int)
    (i : Nat) (prev : Int) (pids : List Int) (w : World) (p : Nat)
    (hi : ¬ i + 1 < n) (hf : env.fork_pid i = some p) :
    loop_body env l n in_fd out_fd i prev pids w =
      Step.next prev (pids ++ [(p : Int)])
        (close_prev
          { w with
            children := w.children ++
              [{ pid := (p : Int), file := (l.seq.getD i []).head?, argv := l.seq.getD i [],
                 fds := pipeline_child w.fds prev false (-1, -1) out_fd }] }
          prev in_fd) := by
  simp [loop_body, hi, hf]

theorem sys_pipe_spec (w : World) (k : Nat) :
    ∃ r wr : Int, 0 ≤ r ∧ 0 ≤ wr ∧ r ≠ wr ∧
      w.fds.lookup r = none ∧ w.fds.lookup wr = none ∧
      (sys_pipe w k).1 = (r, wr) ∧
      (∀ fd, (sys_pipe w k).2.fds.lookup fd =
        if fd = wr then some (Obj.pipeWrite k) else if fd = r then some (Obj.pipeRead k)
        else w.fds.lookup fd) ∧
      (sys_pipe w k).2.opened = w.opened ++ [(r, Obj.pipeRead k), (wr, Obj.pipeWrite k)] ∧
      (sys_pipe w k).2.pipes = w.pipes ++ [(r, wr)] ∧
      (sys_pipe w k).2.closed = w.closed ∧
      (sys_pipe w k).2.children = w.children := by
  have hr0 : (0 : Int) ≤ (w.fds.lowestFree : Int) := Int.ofNat_nonneg _
  have hw0 : (0 : Int) ≤
      ((w.fds.install (w.fds.lowestFree : Int) (some (Obj.pipeRead k))).lowestFree : Int) :=
    Int.ofNat_nonneg _
  have hfree := lookup_lowestFree w.fds
  have hfree2 := lookup_lowestFree (w.fds.install (w.fds.lowestFree : Int) (some (Obj.pipeRead k)))
  rw [lookup_install _ _ _ _ hr0] at hfree2
  refine ⟨_, _, hr0, hw0, ?_, hfree, ?_, rfl, ?_, ?_, rfl, rfl, rfl⟩
  · intro e
    rw [← e] at hfree2
    simp at hfree2
  · split at hfree2
    · cases hfree2
    · exact hfree2
  · intro fd
    simp only [sys_pipe, sys_open]
    rw [lookup_install _ _ _ _ hw0, lookup_install _ _ _ _ hr0]
  · simp [sys_pipe, sys_open]

theorem pipeline_child_first_noin (T0 t : FdTable) (out_fd r wr : Int) (n : Nat)
    (hstd : StdOpen T0 (-1) out_fd) (hi : 0 + 1 < n)
    (hr : T0.lookup r = none) (hw : T0.lookup wr = none) (hrw : r ≠ wr)
    (ht : ∀ fd, t.lookup fd =
      if fd = wr then some (Obj.pipeWrite 0) else if fd = r then some (Obj.pipeRead 0)
      else T0.lookup fd) :
    ∀ fd, (pipeline_child t (-1) true (r, wr) out_fd).lookup fd
      = child_view T0 (-1) out_fd n 0 fd := by
  obtain ⟨h0, h1, -, -, ho0, ho1⟩ := hstd
  have hr0 : r ≠ 0 := fun e => h0 (e ▸ hr)
  have hr1 : r ≠ 1 := fun e => h1 (e ▸ hr)
  have hw0 : wr ≠ 0 := fun e => h0 (e ▸ hw)
  have hw1 : wr ≠ 1 := fun e => h1 (e ▸ hw)
  have hn : ¬ (0 + 1 = n) := by omega
  have hm1 : T0.lookup (-1) = none := lookup_neg T0 (-1) (by decide)
  intro fd
  simp only [pipeline_child, STDIN_FILENO, STDOUT_FILENO, if_true, child_view, lookup_closeFd,
    lookup_dup2 _ _ _ _ (by decide : (0:Int) ≤ 1),
    lookup_dup2 _ _ _ _ (by decide : (0:Int) ≤ 0),
    ht]
  by_cases e0 : fd = 0 <;> by_cases e1 : fd = 1 <;> by_cases ew : fd = wr <;>
    by_cases er : fd = r <;> by_cases em : fd = -1 <;> simp_all

theorem pipeline_child_first_in (T0 t : FdTable) (in_fd out_fd r wr : Int) (n : Nat)
    (hstd : StdOpen T0 in_fd out_fd) (hi : 0 + 1 < n)
    (hge : 0 ≤ in_fd) (hopen : T0.lookup in_fd ≠ none)
    (hr : T0.lookup r = none) (hw : T0.lookup wr = none) (hrw : r ≠ wr)
    (ht : ∀ fd, t.lookup fd =
      if fd = wr then some (Obj.pipeWrite 0) else if fd = r then some (Obj.pipeRead 0)
      else T0.lookup fd) :
    ∀ fd, (pipeline_child t in_fd true (r, wr) out_fd).lookup fd
      = child_view T0 in_fd out_fd n 0 fd := by
  obtain ⟨h0, h1, hi0, hi1, ho0, ho1⟩ := hstd
  have hr0 : r ≠ 0 := fun e => h0 (e ▸ hr)
  have hr1 : r ≠ 1 := fun e => h1 (e ▸ hr)
  have hw0 : wr ≠ 0 := fun e => h0 (e ▸ hw)
  have hw1 : wr ≠ 1 := fun e => h1 (e ▸ hw)
  have hn : ¬ (0 + 1 = n) := by omega
  have hpr : in_fd ≠ r := fun e => hopen (e ▸ hr)
  have hpw : in_fd ≠ wr := fun e => hopen (e ▸ hw)
  have hpm : in_fd ≠ -1 := by omega
  have hpr2 : r ≠ in_fd := fun e => hpr e.symm
  have hpw2 : wr ≠ in_fd := fun e => hpw e.symm
  have hrw2 : wr ≠ r := fun e => hrw e.symm
  intro fd
  simp only [pipeline_child, STDIN_FILENO, STDOUT_FILENO, if_true, child_view, hpm, ne_eq,
    not_false_eq_true, lookup_closeFd,
    lookup_dup2 _ _ _ _ (by decide : (0:Int) ≤ 1),
    lookup_dup2 _ _ _ _ (by decide : (0:Int) ≤ 0),
    ht]
  by_cases e0 : fd = 0 <;> by_cases e1 : fd = 1 <;> by_cases ew : fd = wr <;>
    by_cases er : fd = r <;> by_cases ep : fd = in_fd <;> simp_all

theorem pipeline_child_mid (T0 t : FdTable) (in_fd out_fd prev r wr : Int) (n i : Nat)
    (hstd : StdOpen T0 in_fd out_fd) (hi : i + 1 < n) (hipos : 0 < i)
    (hr : T0.lookup r = none) (hw : T0.lookup wr = none) (hrw : r ≠ wr)
    (hpr : r ≠ prev) (hpw : wr ≠ prev)
    (hpge : 0 ≤ prev) (hpfree : T0.lookup prev = none)
    (ht : ∀ fd, t.lookup fd =
      if fd = wr then some (Obj.pipeWrite i) else if fd = r then some (Obj.pipeRead i)
      else if fd = prev then some (Obj.pipeRead (i - 1)) else T0.lookup fd) :
    ∀ fd, (pipeline_child t prev true (r, wr) out_fd).lookup fd
      = child_view T0 in_fd out_fd n i fd := by
  obtain ⟨h0, h1, hi0, hi1, ho0, ho1⟩ := hstd
  have hr0 : r ≠ 0 := fun e => h0 (e ▸ hr)
  have hr1 : r ≠ 1 := fun e => h1 (e ▸ hr)
  have hw0 : wr ≠ 0 := fun e => h0 (e ▸ hw)
  have hw1 : wr ≠ 1 := fun e => h1 (e ▸ hw)
  have hn : ¬ (i + 1 = n) := by omega
  have hp0 : prev ≠ 0 := fun e => h0 (e ▸ hpfree)
  have hp1 : prev ≠ 1 := fun e => h1 (e ▸ hpfree)
  have hpm : prev ≠ -1 := by omega
  have hine : i ≠ 0 := by omega
  have hpr2 : prev ≠ r := fun e => hpr e.symm
  have hpw2 : prev ≠ wr := fun e => hpw e.symm
  have hrw2 : wr ≠ r := fun e => hrw e.symm
  intro fd
  simp only [pipeline_child, STDIN_FILENO, STDOUT_FILENO, if_true, child_view, hpm, ne_eq,
    not_false_eq_true, lookup_closeFd,
    lookup_dup2 _ _ _ _ (by decide : (0:Int) ≤ 1),
    lookup_dup2 _ _ _ _ (by decide : (0:Int) ≤ 0),
    ht]
  by_cases e0 : fd = 0 <;> by_cases e1 : fd = 1 <;> by_cases ew : fd = wr <;>
    by_cases er : fd = r <;> by_cases ep : fd = prev <;> simp_all

theorem pipeline_child_last (T0 t : FdTable) (in_fd out_fd prev : Int) (n i : Nat)
    (hstd : StdOpen T0 in_fd out_fd) (hi : i + 1 = n) (hipos : 0 < i)
    (hout : out_fd = -1 ∨ (0 ≤ out_fd ∧ T0.lookup out_fd ≠ none))
    (hpge : 0 ≤ prev) (hpfree : T0.lookup prev = none)
    (ht : ∀ fd, t.lookup fd =
      if fd = prev then some (Obj.pipeRead (i - 1)) else T0.lookup fd) :
    ∀ fd, (pipeline_child t prev false (-1, -1) out_fd).lookup fd
      = child_view T0 in_fd out_fd n i fd := by
  obtain ⟨h0, h1, hi0, hi1, ho0, ho1⟩ := hstd
  have hn : ¬ (i + 1 < n) := by omega
  have hp0 : prev ≠ 0 := fun e => h0 (e ▸ hpfree)
  have hp1 : prev ≠ 1 := fun e => h1 (e ▸ hpfree)
  have hpm : prev ≠ -1 := by omega
  have hine : i ≠ 0 := by omega
  have hm1 : T0.lookup (-1) = none := lookup_neg T0 (-1) (by decide)
  intro fd
  rcases hout with hneg | ⟨hge, hopen⟩
  · subst hneg
    simp only [pipeline_child, STDIN_FILENO, STDOUT_FILENO, child_view, hpm, ne_eq,
      not_false_eq_true, not_true_eq_false, if_true, if_false, lookup_closeFd, Bool.false_eq_true,
      lookup_dup2 _ _ _ _ (by decide : (0:Int) ≤ 0), ht]
    by_cases e0 : fd = 0 <;> by_cases e1 : fd = 1 <;> by_cases ep : fd = prev <;>
      by_cases em : fd = -1 <;> simp_all
  · have hom : out_fd ≠ -1 := by omega
    have hop : out_fd ≠ prev := fun e => hopen (e ▸ hpfree)
    have hop2 : prev ≠ out_fd := fun e => hop e.symm
    simp only [pipeline_child, STDIN_FILENO, STDOUT_FILENO, child_view, hpm, hom, ne_eq,
      not_false_eq_true, not_true_eq_false, if_true, if_false, lookup_closeFd, Bool.false_eq_true,
      lookup_dup2 _ _ _ _ (by decide : (0:Int) ≤ 1),
      lookup_dup2 _ _ _ _ (by decide : (0:Int) ≤ 0), ht]
    by_cases e0 : fd = 0 <;> by_cases e1 : fd = 1 <;> by_cases ep : fd = prev <;>
      by_cases eo : fd = out_fd <;> simp_all

theorem execute_command_child_view (T0 : FdTable) (in_fd out_fd : Int)
    (hstd : StdOpen T0 in_fd out_fd)
    (hin : in_fd = -1 ∨ (0 ≤ in_fd ∧ T0.lookup in_fd ≠ none))
    (hout : out_fd = -1 ∨ (0 ≤ out_fd ∧ T0.lookup out_fd ≠ none))
    (hio : in_fd = -1 ∨ in_fd ≠ out_fd) :
    ∀ fd, (execute_command_child T0 in_fd out_fd).lookup fd
      = child_view T0 in_fd out_fd 1 0 fd := by
  obtain ⟨h0, h1, hi0, hi1, ho0, ho1⟩ := hstd
  have hm1 : T0.lookup (-1) = none := lookup_neg T0 (-1) (by decide)
  intro fd
  rcases hin with hineg | ⟨hige, hiopen⟩ <;> rcases hout with honeg | ⟨hoge, hoopen⟩
  · subst hineg; subst honeg
    simp only [execute_command_child, child_view, ne_eq, not_true_eq_false, if_false]
    by_cases e0 : fd = 0 <;> by_cases e1 : fd = 1 <;> by_cases em : fd = -1 <;> simp_all
  · subst hineg
    have hom : out_fd ≠ -1 := by omega
    simp only [execute_command_child, STDOUT_FILENO, child_view, hom, ne_eq,
      not_false_eq_true, not_true_eq_false, if_true, if_false, lookup_closeFd,
      lookup_dup2 _ _ _ _ (by decide : (0:Int) ≤ 1)]
    by_cases e0 : fd = 0 <;> by_cases e1 : fd = 1 <;> by_cases em : fd = -1 <;>
      by_cases eo : fd = out_fd <;> simp_all
  · subst honeg
    have him : in_fd ≠ -1 := by omega
    simp only [execute_command_child, STDIN_FILENO, child_view, him, ne_eq,
      not_false_eq_true, not_true_eq_false, if_true, if_false, lookup_closeFd,
      lookup_dup2 _ _ _ _ (by decide : (0:Int) ≤ 0)]
    by_cases e0 : fd = 0 <;> by_cases e1 : fd = 1 <;> by_cases em : fd = -1 <;>
      by_cases ei : fd = in_fd <;> simp_all
  · have him : in_fd ≠ -1 := by omega
    have hom : out_fd ≠ -1 := by omega
    have hio1 : in_fd ≠ out_fd := by
      rcases hio with h | h
      · exact absurd h him
      · exact h
    have hio2 : out_fd ≠ in_fd := fun e => hio1 e.symm
    simp only [execute_command_child, STDIN_FILENO, STDOUT_FILENO, child_view, him, hom, ne_eq,
      not_false_eq_true, not_true_eq_false, if_true, if_false, lookup_closeFd,
      lookup_dup2 _ _ _ _ (by decide : (0:Int) ≤ 0),
      lookup_dup2 _ _ _ _ (by decide : (0:Int) ≤ 1)]
    by_cases e0 : fd = 0 <;> by_cases e1 : fd = 1 <;> by_cases eo : fd = out_fd <;>
      by_cases ei : fd = in_fd <;> simp_all

theorem pipeObjs_succ_map (i : Nat) :
    (pipeObjs (i + 1)).map some =
      (pipeObjs i).map some ++ [some (Obj.pipeRead i), some (Obj.pipeWrite i)] := by
  simp [pipeObjs]

theorem get?_append_single {α : Type} (xs : List α) (x c : α) (j : Nat)
    (h : (xs ++ [x]).get? j = some c) :
    xs.get? j = some c ∨ (j = xs.length ∧ c = x) := by
  rw [List.get?_eq_getElem?] at h
  rw [List.get?_eq_getElem?]
  by_cases hj : j < xs.length
  · rw [List.getElem?_append_left hj] at h
    exact Or.inl h
  · have hj2 : xs.length ≤ j := Nat.not_lt.mp hj
    rw [List.getElem?_append_right hj2] at h
    right
    by_cases hz : j - xs.length = 0
    · rw [hz] at h
      simp at h
      exact ⟨by omega, h.symm⟩
    · obtain ⟨k, hk⟩ := Nat.exists_eq_succ_of_ne_zero hz
      rw [hk] at h
      simp at h

theorem close_prev_skip (w : World) (prev in_fd : Int) (h : prev = -1 ∨ prev = in_fd) :
    close_prev w prev in_fd = w := by
  unfold close_prev
  rcases h with h | h <;> simp [h]

theorem close_prev_do (w : World) (prev in_fd : Int) (h1 : prev ≠ -1) (h2 : prev ≠ in_fd) :
    close_prev w prev in_fd = sys_close w prev := by
  simp [close_prev, h1, h2]

theorem loop_inv_step (env : Env) (l : cmdline) (T0 : FdTable) (in_fd out_fd : Int) (n : Nat)
    (redirs : List Obj) (i : Nat) (prev : Int) (pids : List Int) (w : World) (p : Nat)
    (hin : in_fd = -1 ∨ (0 ≤ in_fd ∧ T0.lookup in_fd ≠ none))
    (hi : i + 1 < n) (hp : env.pipe_ok i = true) (hf : env.fork_pid i = some p)
    (inv : LoopInv env l T0 in_fd out_fd n redirs i prev pids w) :
    ∃ prev2 w2, loop_body env l n in_fd out_fd i prev pids w
        = Step.next prev2 (pids ++ [(p : Int)]) w2 ∧
      LoopInv env l T0 in_fd out_fd n redirs (i + 1) prev2 (pids ++ [(p : Int)]) w2 := by
  rw [loop_body_next env l n in_fd out_fd i prev pids w p hi hp hf]
  obtain ⟨r, wr, hr0, hw0, hrw, hrfree, hwfree, hpair, hfds, hopened, hpipes, hclosed, hkids⟩ :=
    sys_pipe_spec w i
  have hrw2 : wr ≠ r := fun e => hrw e.symm
  refine ⟨_, _, rfl, ?_⟩
  rw [hpair]
  rcases Nat.eq_zero_or_pos i with hi0 | hipos
  · -- first pass: prev_pipe_read is in_fd, nothing to close
    subst hi0
    have hpe := inv.prev_zero rfl
    subst hpe
    have htbl : ∀ fd, w.fds.lookup fd = T0.lookup fd := fun fd => by
      rw [inv.tbl fd]; simp
    have hrT : T0.lookup r = none := by rw [← htbl r]; exact hrfree
    have hwT : T0.lookup wr = none := by rw [← htbl wr]; exact hwfree
    have hcl : w.closed.map Prod.snd = [] := by
      have := inv.closed
      simpa [pipeObjs] using this
    rw [close_prev_skip _ prev prev (Or.inr rfl)]
    constructor
    · intro fd
      show (closeFd (sys_pipe w 0).2.fds wr).lookup fd = _
      rw [lookup_closeFd, hfds, htbl]
      by_cases e1 : fd = wr
      · subst e1; simp [hrw2, hwT]
      · simp [e1]
    · intro h; omega
    · intro _
      exact ⟨hr0, hrT⟩
    · show ((sys_pipe w 0).2.opened).map Prod.snd = _
      rw [hopened]
      simp [inv.opened, pipeObjs]
    · show (((sys_pipe w 0).2.closed ++ [(wr, (sys_pipe w 0).2.fds.lookup wr)]).map Prod.snd
        ++ _).Perm _
      rw [hclosed, hfds]
      simp only [List.map_append, hcl, List.nil_append, List.map_cons, List.map_nil, if_true]
      simp [pipeObjs]
      exact List.Perm.swap _ _ _
    · show ((sys_pipe w 0).2.pipes).length = _
      rw [hpipes]; simp [inv.pipes]
    · show ((sys_pipe w 0).2.children ++ [_]).length = _
      rw [hkids]; simp [inv.kids]
    · show _ = ((sys_pipe w 0).2.children ++ [_]).map Child.pid
      rw [hkids, inv.pids_eq]; simp
    · intro j c hc
      change ((sys_pipe w 0).2.children ++ [_]).get? j = some c at hc
      rw [hkids] at hc
      rcases get?_append_single _ _ _ _ hc with hold | ⟨hj, hce⟩
      · exact absurd (inv.kid j c hold) (by
          have := List.get?_eq_some.mp hold
          obtain ⟨hlt, -⟩ := this
          rw [inv.kids] at hlt
          omega)
      · rw [inv.kids] at hj
        subst hj; subst hce
        refine ⟨⟨p, hf, rfl⟩, rfl, rfl, ?_⟩
        intro hstd
        rcases hin with hneg | ⟨hge, hopen⟩
        · subst hneg
          exact pipeline_child_first_noin T0 _ out_fd r wr n hstd hi hrT hwT hrw
            (fun fd => by rw [hfds fd, htbl fd])
        · exact pipeline_child_first_in T0 _ prev out_fd r wr n hstd hi hge hopen hrT
            hwT hrw (fun fd => by rw [hfds fd, htbl fd])
  · -- later passes: prev_pipe_read is the read end of pipe i-1
    obtain ⟨hpge, hpfree⟩ := inv.prev_pos hipos
    have hpm : prev ≠ -1 := by omega
    have hpin : prev ≠ in_fd := by
      rcases hin with hneg | ⟨-, hopen⟩
      · omega
      · exact fun e => hopen (e ▸ hpfree)
    have htbl : ∀ fd, w.fds.lookup fd =
        if fd = prev then some (Obj.pipeRead (i - 1)) else T0.lookup fd := fun fd => by
      rw [inv.tbl fd]; simp [hipos]
    have hrp : r ≠ prev := fun e => by
      have := htbl r; rw [hrfree, e] at this; simp at this
    have hwp : wr ≠ prev := fun e => by
      have := htbl wr; rw [hwfree, e] at this; simp at this
    have hpr : prev ≠ r := fun e => hrp e.symm
    have hpw : prev ≠ wr := fun e => hwp e.symm
    have hrT : T0.lookup r = none := by
      have := htbl r; rw [hrfree, if_neg hrp] at this; exact this.symm
    have hwT : T0.lookup wr = none := by
      have := htbl wr; rw [hwfree, if_neg hwp] at this; exact this.symm
    rw [close_prev_do _ prev in_fd hpm hpin]
    constructor
    · intro fd
      show (closeFd (closeFd (sys_pipe w i).2.fds prev) wr).lookup fd = _
      rw [lookup_closeFd, lookup_closeFd, hfds, htbl]
      by_cases e1 : fd = wr
      · subst e1; simp [hrw2, hwT]
      · by_cases e2 : fd = prev
        · subst e2; simp [e1, hpr, hpfree]
        · simp [e1, e2]
    · intro h; omega
    · intro _
      exact ⟨hr0, hrT⟩
    · show ((sys_pipe w i).2.opened).map Prod.snd = _
      rw [hopened]
      simp [inv.opened, pipeObjs]
    · show ((((sys_pipe w i).2.closed ++ [(prev, (sys_pipe w i).2.fds.lookup prev)]) ++
        [(wr, (closeFd (sys_pipe w i).2.fds prev).lookup wr)]).map Prod.snd ++ _).Perm _
      rw [hclosed, lookup_closeFd, hfds, hfds, htbl]
      have hc := inv.closed
      simp only [hipos, if_true] at hc
      simp only [List.map_append, List.map_cons, List.map_nil, if_true, hpw, hpr, hwp, if_false,
        Nat.add_sub_cancel, Nat.succ_pos, pipeObjs_succ_map]
      have h3 : (List.map Prod.snd w.closed ++ [some (Obj.pipeRead (i - 1))] ++
            [some (Obj.pipeWrite i)] ++ [some (Obj.pipeRead i)]) =
          (List.map Prod.snd w.closed ++ [some (Obj.pipeRead (i - 1))]) ++
            [some (Obj.pipeWrite i), some (Obj.pipeRead i)] := by simp
      rw [h3]
      exact List.Perm.append hc (List.Perm.swap _ _ _)
    · show ((sys_pipe w i).2.pipes).length = _
      rw [hpipes]; simp [inv.pipes]
    · show ((sys_pipe w i).2.children ++ [_]).length = _
      rw [hkids]; simp [inv.kids]
    · show _ = ((sys_pipe w i).2.children ++ [_]).map Child.pid
      rw [hkids, inv.pids_eq]; simp
    · intro j c hc
      change ((sys_pipe w i).2.children ++ [_]).get? j = some c at hc
      rw [hkids] at hc
      rcases get?_append_single _ _ _ _ hc with hold | ⟨hj, hce⟩
      · exact inv.kid j c hold
      · rw [inv.kids] at hj
        subst hj; subst hce
        refine ⟨⟨p, hf, rfl⟩, rfl, rfl, ?_⟩
        intro hstd
        exact pipeline_child_mid T0 _ in_fd out_fd prev r wr n _ hstd hi hipos hrT hwT hrw
          hrp hwp hpge hpfree (fun fd => by rw [hfds fd, htbl fd])

theorem loop_body_pipe_fail (env : Env) (l : cmdline) (n : Nat) (in_fd out_fd : Int)
    (i : Nat) (prev : Int) (pids : List Int) (w : World)
    (hi : i + 1 < n) (hp : env.pipe_ok i = false) :
    loop_body env l n in_fd out_fd i prev pids w = Step.failed (close_prev w prev in_fd) := by
  simp [loop_body, hi, hp]

theorem loop_body_fork_fail (env : Env) (l : cmdline) (n : Nat) (in_fd out_fd : Int)
    (i : Nat) (prev : Int) (pids : List Int) (w : World)
    (hp : i + 1 < n → env.pipe_ok i = true) (hf : env.fork_pid i = none) :
    ∃ w2, loop_body env l n in_fd out_fd i prev pids w = Step.failed w2 := by
  by_cases hi : i + 1 < n
  · simp [loop_body, hi, hp hi, hf]
  · simp [loop_body, hi, hf]

theorem loop_inv_last (env : Env) (l : cmdline) (T0 : FdTable) (in_fd out_fd : Int) (n : Nat)
    (redirs : List Obj) (i : Nat) (prev : Int) (pids : List Int) (w : World) (p : Nat)
    (hin : in_fd = -1 ∨ (0 ≤ in_fd ∧ T0.lookup in_fd ≠ none))
    (hout : out_fd = -1 ∨ (0 ≤ out_fd ∧ T0.lookup out_fd ≠ none))
    (hi : i + 1 = n) (hipos : 0 < i) (hf : env.fork_pid i = some p)
    (inv : LoopInv env l T0 in_fd out_fd n redirs i prev pids w) :
    ∃ w2, loop_body env l n in_fd out_fd i prev pids w
        = Step.next prev (pids ++ [(p : Int)]) w2 ∧
      LoopPost env l T0 in_fd out_fd n redirs (pids ++ [(p : Int)]) w2 := by
  rw [loop_body_last env l n in_fd out_fd i prev pids w p (by omega) hf]
  refine ⟨_, rfl, ?_⟩
  obtain ⟨hpge, hpfree⟩ := inv.prev_pos hipos
  have hpm : prev ≠ -1 := by omega
  have hpin : prev ≠ in_fd := by
    rcases hin with hneg | ⟨-, hopen⟩
    · omega
    · exact fun e => hopen (e ▸ hpfree)
  have htbl : ∀ fd, w.fds.lookup fd =
      if fd = prev then some (Obj.pipeRead (i - 1)) else T0.lookup fd := fun fd => by
    rw [inv.tbl fd]; simp [hipos]
  have hn1 : n - 1 = i := by omega
  rw [close_prev_do _ prev in_fd hpm hpin]
  constructor
  · intro fd
    show (closeFd w.fds prev).lookup fd = _
    rw [lookup_closeFd, htbl]
    by_cases e : fd = prev
    · subst e; simp [hpfree]
    · simp [e]
  · show w.opened.map Prod.snd = _
    rw [inv.opened, hn1]
  · show ((w.closed ++ [(prev, w.fds.lookup prev)]).map Prod.snd).Perm _
    rw [htbl, hn1]
    have hc := inv.closed
    simp only [hipos, if_true] at hc
    simpa using hc
  · show w.pipes.length = _
    rw [inv.pipes, hn1]
  · show (w.children ++ [_]).length = _
    simp [inv.kids, hi]
  · show _ = (w.children ++ [_]).map Child.pid
    rw [inv.pids_eq]; simp
  · intro j c hc
    change (w.children ++ [_]).get? j = some c at hc
    rcases get?_append_single _ _ _ _ hc with hold | ⟨hj, hce⟩
    · exact inv.kid j c hold
    · rw [inv.kids] at hj
      subst hj; subst hce
      refine ⟨⟨p, hf, rfl⟩, rfl, rfl, ?_⟩
      intro hstd
      exact pipeline_child_last T0 _ in_fd out_fd prev n _ hstd hi hipos hout hpge hpfree htbl

theorem pipeline_loop_spec (env : Env) (l : cmdline) (T0 : FdTable) (in_fd out_fd : Int)
    (n : Nat) (redirs : List Obj)
    (hin : in_fd = -1 ∨ (0 ≤ in_fd ∧ T0.lookup in_fd ≠ none))
    (hout : out_fd = -1 ∨ (0 ≤ out_fd ∧ T0.lookup out_fd ≠ none))
    (hn : 2 ≤ n) :
    ∀ (remaining i : Nat) (prev : Int) (pids : List Int) (w : World),
      i + remaining + 1 = n →
      LoopInv env l T0 in_fd out_fd n redirs i prev pids w →
      ((pipeline_loop env l n in_fd out_fd (remaining + 1) i prev pids w).1 = none ∧
        ∃ j, j < n ∧ ((j + 1 < n ∧ env.pipe_ok j = false) ∨ env.fork_pid j = none)) ∨
      (∃ pids2 w2, pipeline_loop env l n in_fd out_fd (remaining + 1) i prev pids w
          = (some pids2, w2) ∧
        LoopPost env l T0 in_fd out_fd n redirs pids2 w2 ∧
        ∀ j, i ≤ j → j < n →
          (j + 1 < n → env.pipe_ok j = true) ∧ env.fork_pid j ≠ none) := by
  intro remaining
  induction remaining with
  | zero =>
    intro i prev pids w hsum inv
    have hi : i + 1 = n := by omega
    cases hf : env.fork_pid i with
    | none =>
      left
      obtain ⟨w2, hw2⟩ := loop_body_fork_fail env l n in_fd out_fd i prev pids w
        (fun h => by omega) hf
      refine ⟨by simp [pipeline_loop, hw2], i, by omega, Or.inr hf⟩
    | some p =>
      right
      obtain ⟨w2, hw2, post⟩ := loop_inv_last env l T0 in_fd out_fd n redirs i prev pids w p
        hin hout hi (by omega) hf inv
      refine ⟨pids ++ [(p : Int)], w2, by simp [pipeline_loop, hw2], post, ?_⟩
      intro j hj1 hj2
      have : j = i := by omega
      subst this
      exact ⟨fun h => by omega, by simp [hf]⟩
  | succ m ih =>
    intro i prev pids w hsum inv
    have hi : i + 1 < n := by omega
    cases hp : env.pipe_ok i with
    | false =>
      left
      have hb := loop_body_pipe_fail env l n in_fd out_fd i prev pids w hi hp
      refine ⟨by simp [pipeline_loop, hb], i, by omega, Or.inl ⟨hi, hp⟩⟩
    | true =>
      cases hf : env.fork_pid i with
      | none =>
        left
        obtain ⟨w2, hw2⟩ := loop_body_fork_fail env l n in_fd out_fd i prev pids w
          (fun _ => hp) hf
        refine ⟨by simp [pipeline_loop, hw2], i, by omega, Or.inr hf⟩
      | some p =>
        obtain ⟨prev2, w2, hw2, inv2⟩ := loop_inv_step env l T0 in_fd out_fd n redirs i prev
          pids w p hin hi hp hf inv
        have hunf : pipeline_loop env l n in_fd out_fd (m + 1 + 1) i prev pids w =
            pipeline_loop env l n in_fd out_fd (m + 1) (i + 1) prev2 (pids ++ [(p : Int)]) w2 := by
          simp [pipeline_loop, hw2]
        rw [hunf]
        rcases ih (i + 1) prev2 (pids ++ [(p : Int)]) w2 (by omega) inv2 with hfail | hok
        · exact Or.inl hfail
        · right
          obtain ⟨pids3, w3, h3, post, hall⟩ := hok
          refine ⟨pids3, w3, h3, post, ?_⟩
          intro j hj1 hj2
          by_cases e : j = i
          · subst e
            exact ⟨fun _ => hp, by simp [hf]⟩
          · exact hall j (by omega) hj2

theorem SameJobs.refl (w : World) : SameJobs w w := ⟨rfl, rfl, rfl⟩

theorem SameJobs.trans {a b c : World} (h1 : SameJobs a b) (h2 : SameJobs b c) : SameJobs a c :=
  ⟨h2.1.trans h1.1, h2.2.1.trans h1.2.1, h2.2.2.trans h1.2.2⟩

theorem sameJobs_sys_close (w : World) (fd : Int) : SameJobs w (sys_close w fd) :=
  ⟨rfl, rfl, rfl⟩

theorem sameJobs_sys_open (w : World) (o : Obj) : SameJobs w (sys_open w o).2 :=
  ⟨rfl, rfl, rfl⟩

theorem sameJobs_sys_pipe (w : World) (k : Nat) : SameJobs w (sys_pipe w k).2 :=
  ⟨rfl, rfl, rfl⟩

theorem sameJobs_close_prev (w : World) (prev in_fd : Int) :
    SameJobs w (close_prev w prev in_fd) := by
  unfold close_prev
  split
  · exact sameJobs_sys_close w prev
  · exact SameJobs.refl w

theorem sameJobs_close_if_open (w : World) (fd : Int) : SameJobs w (close_if_open w fd) := by
  unfold close_if_open
  split
  · exact sameJobs_sys_close w fd
  · exact SameJobs.refl w

theorem loop_body_frame (env : Env) (l : cmdline) (n : Nat) (in_fd out_fd : Int)
    (i : Nat) (prev : Int) (pids : List Int) (w : World) :
    SameJobs w (loop_body env l n in_fd out_fd i prev pids w).world := by
  unfold loop_body
  split
  · exact sameJobs_close_prev w prev in_fd
  · cases hf : env.fork_pid i with
    | none =>
      by_cases hi : i + 1 < n
      · simp only [hi, decide_True, if_true, Step.world]
        exact ((sameJobs_sys_pipe w i).trans
          ((sameJobs_sys_close _ _).trans (sameJobs_sys_close _ _))).trans
            (sameJobs_close_prev _ _ _)
      · simp only [hi, decide_False, Step.world]
        exact sameJobs_close_prev _ _ _
    | some p =>
      by_cases hi : i + 1 < n
      · simp only [hi, decide_True, if_true, Step.world]
        refine (sameJobs_sys_pipe w i).trans (SameJobs.trans ?_ (sameJobs_sys_close _ _))
        exact SameJobs.trans ⟨rfl, rfl, rfl⟩ (sameJobs_close_prev _ _ _)
      · simp only [hi, decide_False, Step.world]
        exact SameJobs.trans ⟨rfl, rfl, rfl⟩ (sameJobs_close_prev _ _ _)

theorem pipeline_loop_frame (env : Env) (l : cmdline) (n : Nat) (in_fd out_fd : Int) :
    ∀ (remaining i : Nat) (prev : Int) (pids : List Int) (w : World),
      SameJobs w (pipeline_loop env l n in_fd out_fd remaining i prev pids w).2 := by
  intro remaining
  induction remaining with
  | zero => intro i prev pids w; exact SameJobs.refl w
  | succ m ih =>
    intro i prev pids w
    have hb := loop_body_frame env l n in_fd out_fd i prev pids w
    unfold pipeline_loop
    cases hs : loop_body env l n in_fd out_fd i prev pids w with
    | failed w1 =>
      rw [hs] at hb
      exact hb
    | next prev1 pids1 w1 =>
      rw [hs] at hb
      exact SameJobs.trans hb (ih (i + 1) prev1 pids1 w1)

/-! ## The whole of execute: lemmas -/

theorem sys_open_spec (w : World) (o : Obj) :
    0 ≤ (sys_open w o).1 ∧ w.fds.lookup (sys_open w o).1 = none ∧
    (∀ fd, (sys_open w o).2.fds.lookup fd =
      if fd = (sys_open w o).1 then some o else w.fds.lookup fd) ∧
    (sys_open w o).2.opened = w.opened ++ [((sys_open w o).1, o)] ∧
    (sys_open w o).2.closed = w.closed ∧ (sys_open w o).2.pipes = w.pipes ∧
    (sys_open w o).2.children = w.children := by
  have h0 : (0 : Int) ≤ (w.fds.lowestFree : Int) := Int.ofNat_nonneg _
  refine ⟨h0, lookup_lowestFree w.fds, ?_, rfl, rfl, rfl, rfl⟩
  intro fd
  simp only [sys_open]
  rw [lookup_install _ _ _ _ h0]

theorem execute_resolves (env : Env) (l : cmdline) (init : FdTable) (reg : JobTable)
    (hseq : l.seq ≠ []) :
    ((execute env l (World.start init reg)).1 = EXIT_FAILURE ∧
      ((l.in_ ≠ none ∧ env.open_in_ok = false) ∨
        (l.out ≠ none ∧ env.open_out_ok = false))) ∨
    (∃ in_fd out_fd W,
      execute env l (World.start init reg) = execute_resolved env l in_fd out_fd W ∧
      Resolved init reg l in_fd out_fd W ∧
      (l.in_ ≠ none → env.open_in_ok = true) ∧
      (l.out ≠ none → env.open_out_ok = true)) := by
  cases hi : l.in_ with
  | none =>
    cases ho : l.out with
    | none =>
      right
      refine ⟨-1, -1, World.start init reg, ?_, ?_, by simp, by simp⟩
      · simp [execute, hseq, hi, ho]
      · exact
          { in_none := fun _ => rfl
            in_some := fun path h => by simp [hi] at h
            out_none := fun _ => rfl
            out_some := fun path h => by simp [ho] at h
            tbl := fun fd _ _ => rfl
            opened := by simp [redirObjs, hi, ho, World.start]
            closed := rfl
            pipes := rfl
            children := rfl
            jobs := SameJobs.refl _ }
    | some q =>
      cases hoo : env.open_out_ok with
      | false =>
        left
        refine ⟨?_, Or.inr ⟨by simp, rfl⟩⟩
        simp [execute, hseq, hi, ho, hoo]
      | true =>
        right
        obtain ⟨hq0, hqfree, hqtbl, hqop, -, -, -⟩ :=
          sys_open_spec (World.start init reg) (Obj.outFile q)
        refine ⟨-1, (sys_open (World.start init reg) (Obj.outFile q)).1,
          (sys_open (World.start init reg) (Obj.outFile q)).2, ?_, ?_, by simp, by simp [hoo]⟩
        · simp [execute, hseq, hi, ho, hoo]
        · exact
            { in_none := fun _ => rfl
              in_some := fun path h => by simp [hi] at h
              out_none := fun h => by simp [ho] at h
              out_some := fun path h => by
                rw [ho] at h
                cases h
                refine ⟨hq0, hqfree, ?_, by omega⟩
                rw [hqtbl]; simp
              tbl := fun fd _ h2 => by
                rw [hqtbl]; simp [h2]; rfl
              opened := by rw [hqop]; simp [redirObjs, hi, ho, World.start]
              closed := rfl
              pipes := rfl
              children := rfl
              jobs := sameJobs_sys_open _ _ }
  | some p =>
    cases hio : env.open_in_ok with
    | false =>
      left
      refine ⟨?_, Or.inl ⟨by simp, rfl⟩⟩
      simp [execute, hseq, hi, hio]
    | true =>
      obtain ⟨hp0, hpfree, hptbl, hpop, -, -, -⟩ :=
        sys_open_spec (World.start init reg) (Obj.inFile p)
      cases ho : l.out with
      | none =>
        right
        refine ⟨(sys_open (World.start init reg) (Obj.inFile p)).1, -1,
          (sys_open (World.start init reg) (Obj.inFile p)).2, ?_, ?_, by simp [hio], by simp⟩
        · simp [execute, hseq, hi, ho, hio]
        · exact
            { in_none := fun h => by simp [hi] at h
              in_some := fun path h => by
                rw [hi] at h
                cases h
                refine ⟨hp0, hpfree, ?_⟩
                rw [hptbl]; simp
              out_none := fun _ => rfl
              out_some := fun path h => by simp [ho] at h
              tbl := fun fd h1 _ => by
                rw [hptbl]; simp [h1]; rfl
              opened := by rw [hpop]; simp [redirObjs, hi, ho, World.start]
              closed := rfl
              pipes := rfl
              children := rfl
              jobs := sameJobs_sys_open _ _ }
      | some q =>
        cases hoo : env.open_out_ok with
        | false =>
          left
          refine ⟨?_, Or.inr ⟨by simp, rfl⟩⟩
          simp [execute, hseq, hi, ho, hio, hoo]
        | true =>
          right
          obtain ⟨hq0, hqfree, hqtbl, hqop, -, -, -⟩ :=
            sys_open_spec (sys_open (World.start init reg) (Obj.inFile p)).2 (Obj.outFile q)
          have hne : (sys_open (sys_open (World.start init reg) (Obj.inFile p)).2
              (Obj.outFile q)).1 ≠ (sys_open (World.start init reg) (Obj.inFile p)).1 := by
            intro e
            rw [hptbl, e] at hqfree
            simp at hqfree
          have hne2 := fun e => hne (Eq.symm e)
          rw [hptbl, if_neg hne] at hqfree
          refine ⟨(sys_open (World.start init reg) (Obj.inFile p)).1,
            (sys_open (sys_open (World.start init reg) (Obj.inFile p)).2 (Obj.outFile q)).1,
            (sys_open (sys_open (World.start init reg) (Obj.inFile p)).2 (Obj.outFile q)).2,
            ?_, ?_, by simp [hio], by simp [hoo]⟩
          · simp [execute, hseq, hi, ho, hio, hoo]
          · exact
              { in_none := fun h => by simp [hi] at h
                in_some := fun path h => by
                  rw [hi] at h
                  cases h
                  refine ⟨hp0, hpfree, ?_⟩
                  rw [hqtbl, hptbl]; simp
                  exact hne2
                out_none := fun h => by simp [ho] at h
                out_some := fun path h => by
                  rw [ho] at h
                  cases h
                  refine ⟨hq0, hqfree, ?_, hne⟩
                  rw [hqtbl]; simp
                tbl := fun fd h1 h2 => by
                  rw [hqtbl, hptbl]; simp [h1, h2]; rfl
                opened := by rw [hqop, hpop]; simp [redirObjs, hi, ho, World.start]
                closed := rfl
                pipes := rfl
                children := rfl
                jobs := (sameJobs_sys_open _ _).trans (sameJobs_sys_open _ _) }

theorem resolved_hin {init : FdTable} {reg : JobTable} {l : cmdline} {in_fd out_fd : Int}
    {W : World} (res : Resolved init reg l in_fd out_fd W) :
    in_fd = -1 ∨ (0 ≤ in_fd ∧ W.fds.lookup in_fd ≠ none) := by
  cases h : l.in_ with
  | none => exact Or.inl (res.in_none h)
  | some p =>
    obtain ⟨a, -, c⟩ := res.in_some p h
    exact Or.inr ⟨a, by rw [c]; simp⟩

theorem resolved_hout {init : FdTable} {reg : JobTable} {l : cmdline} {in_fd out_fd : Int}
    {W : World} (res : Resolved init reg l in_fd out_fd W) :
    out_fd = -1 ∨ (0 ≤ out_fd ∧ W.fds.lookup out_fd ≠ none) := by
  cases h : l.out with
  | none => exact Or.inl (res.out_none h)
  | some p =>
    obtain ⟨a, -, c, -⟩ := res.out_some p h
    exact Or.inr ⟨a, by rw [c]; simp⟩

theorem resolved_hio {init : FdTable} {reg : JobTable} {l : cmdline} {in_fd out_fd : Int}
    {W : World} (res : Resolved init reg l in_fd out_fd W) :
    in_fd = -1 ∨ in_fd ≠ out_fd := by
  cases hi : l.in_ with
  | none => exact Or.inl (res.in_none hi)
  | some p =>
    right
    obtain ⟨a, -, -⟩ := res.in_some p hi
    cases ho : l.out with
    | none => rw [res.out_none ho]; omega
    | some q =>
      obtain ⟨-, -, -, d⟩ := res.out_some q ho
      exact fun e => d e.symm

theorem close_redirs_spec {init : FdTable} {reg : JobTable} {l : cmdline} {in_fd out_fd : Int}
    {W : World} (res : Resolved init reg l in_fd out_fd W) (w1 : World)
    (htbl : ∀ fd, w1.fds.lookup fd = W.fds.lookup fd) :
    (∀ fd, (close_if_open (close_if_open w1 in_fd) out_fd).fds.lookup fd = init.lookup fd) ∧
    (close_if_open (close_if_open w1 in_fd) out_fd).closed.map Prod.snd =
      w1.closed.map Prod.snd ++ (redirObjs l).map some ∧
    (close_if_open (close_if_open w1 in_fd) out_fd).opened = w1.opened ∧
    (close_if_open (close_if_open w1 in_fd) out_fd).pipes = w1.pipes ∧
    (close_if_open (close_if_open w1 in_fd) out_fd).children = w1.children ∧
    SameJobs w1 (close_if_open (close_if_open w1 in_fd) out_fd) := by
  have hm1 : ∀ t : FdTable, t.lookup (-1) = none := fun t => lookup_neg t (-1) (by decide)
  refine ⟨?_, ?_, ?_, ?_, ?_, (sameJobs_close_if_open _ _).trans (sameJobs_close_if_open _ _)⟩
  · intro fd
    cases hi : l.in_ with
    | none =>
      have e1 := res.in_none hi
      subst e1
      cases ho : l.out with
      | none =>
        have e2 := res.out_none ho
        subst e2
        simp only [close_if_open, ne_eq, not_true_eq_false, if_false, htbl]
        by_cases e : fd = -1
        · subst e; rw [hm1, hm1]
        · exact res.tbl fd e e
      | some q =>
        obtain ⟨a, b, c, d⟩ := res.out_some q ho
        have hom : out_fd ≠ -1 := by omega
        simp only [close_if_open, ne_eq, not_true_eq_false, if_false, hom, not_false_eq_true,
          if_true, sys_close, lookup_closeFd, htbl]
        by_cases e : fd = out_fd
        · subst e; simp [b]
        · by_cases e2 : fd = -1
          · subst e2; simp [hm1, e]
          · simp [e, res.tbl fd e2 e]
    | some p =>
      obtain ⟨a, b, c⟩ := res.in_some p hi
      have him : in_fd ≠ -1 := by omega
      cases ho : l.out with
      | none =>
        have e2 := res.out_none ho
        subst e2
        simp only [close_if_open, ne_eq, not_true_eq_false, if_false, him, not_false_eq_true,
          if_true, sys_close, lookup_closeFd, htbl]
        by_cases e : fd = in_fd
        · subst e; simp [b]
        · by_cases e2 : fd = -1
          · subst e2; simp [hm1, e]
          · simp [e, res.tbl fd e e2]
      | some q =>
        obtain ⟨a2, b2, c2, d2⟩ := res.out_some q ho
        have hom : out_fd ≠ -1 := by omega
        simp only [close_if_open, ne_eq, him, hom, not_false_eq_true,
          if_true, sys_close, lookup_closeFd, htbl]
        by_cases e : fd = in_fd
        · subst e; simp [b]
        · by_cases e2 : fd = out_fd
          · subst e2; simp [b2]
          · simp [e, e2, res.tbl fd e e2]
  · cases hi : l.in_ with
    | none =>
      have e1 := res.in_none hi
      subst e1
      cases ho : l.out with
      | none =>
        have e2 := res.out_none ho
        subst e2
        simp [close_if_open, redirObjs, hi, ho]
      | some q =>
        obtain ⟨a, b, c, d⟩ := res.out_some q ho
        have hom : out_fd ≠ -1 := by omega
        simp [close_if_open, redirObjs, hi, ho, hom, sys_close, htbl, c]
    | some p =>
      obtain ⟨a, b, c⟩ := res.in_some p hi
      have him : in_fd ≠ -1 := by omega
      cases ho : l.out with
      | none =>
        have e2 := res.out_none ho
        subst e2
        simp [close_if_open, redirObjs, hi, ho, him, sys_close, htbl, c]
      | some q =>
        obtain ⟨a2, b2, c2, d2⟩ := res.out_some q ho
        have hom : out_fd ≠ -1 := by omega
        simp [close_if_open, redirObjs, hi, ho, him, hom, sys_close, htbl, c, c2,
          lookup_closeFd, d2]
  · unfold close_if_open; split <;> split <;> rfl
  · unfold close_if_open; split <;> split <;> rfl
  · unfold close_if_open; split <;> split <;> rfl

theorem wait_all_spec (pids : List Int) : ∀ w : World,
    (wait_all w pids).waited = w.waited ++ pids ∧ (wait_all w pids).fds = w.fds ∧
    (wait_all w pids).opened = w.opened ∧ (wait_all w pids).closed = w.closed ∧
    (wait_all w pids).pipes = w.pipes ∧ (wait_all w pids).children = w.children ∧
    (wait_all w pids).registered = w.registered ∧ (wait_all w pids).reg = w.reg := by
  induction pids with
  | nil => intro w; simp [wait_all]
  | cons p ps ih =>
    intro w
    obtain ⟨a, b, c, d, e, f, g, h⟩ := ih (sys_waitpid w p)
    simp only [wait_all]
    refine ⟨?_, ?_, ?_, ?_, ?_, ?_, ?_, ?_⟩
    · rw [a]; simp [sys_waitpid]
    · rw [b]; rfl
    · rw [c]; rfl
    · rw [d]; rfl
    · rw [e]; rfl
    · rw [f]; rfl
    · rw [g]; rfl
    · rw [h]; rfl

theorem loopInv_init {init : FdTable} {reg : JobTable} {l : cmdline} {in_fd out_fd : Int}
    {W : World} (env : Env) (n : Nat) (res : Resolved init reg l in_fd out_fd W) :
    LoopInv env l W.fds in_fd out_fd n (redirObjs l) 0 in_fd [] W :=
  { tbl := fun fd => by simp
    prev_zero := fun _ => rfl
    prev_pos := fun h => absurd h (Nat.lt_irrefl 0)
    opened := by rw [res.opened]; simp [pipeObjs]
    closed := by rw [res.closed]; simp [pipeObjs]
    pipes := by rw [res.pipes]; rfl
    kids := by rw [res.children]; rfl
    pids_eq := by rw [res.children]; rfl
    kid := fun j c h => by rw [res.children] at h; simp at h }

theorem execute_resolved_multi (env : Env) (l : cmdline) (init : FdTable) (reg : JobTable)
    (in_fd out_fd : Int) (W : World) (hn : 2 ≤ l.seq.length)
    (res : Resolved init reg l in_fd out_fd W) :
    ((execute_resolved env l in_fd out_fd W).1 = EXIT_FAILURE ∧
      ∃ j, j < l.seq.length ∧
        ((j + 1 < l.seq.length ∧ env.pipe_ok j = false) ∨ env.fork_pid j = none)) ∨
    ((execute_resolved env l in_fd out_fd W).1 = EXIT_SUCCESS ∧
      ExecPost env l init reg W.fds in_fd out_fd (execute_resolved env l in_fd out_fd W).2) := by
  obtain ⟨m, hm⟩ : ∃ m, l.seq.length = m + 1 := ⟨l.seq.length - 1, by omega⟩
  have hne1 : ¬ l.seq.length = 1 := by omega
  have hspec := pipeline_loop_spec env l W.fds in_fd out_fd l.seq.length (redirObjs l)
    (resolved_hin res) (resolved_hout res) hn m 0 in_fd [] W (by omega)
    (loopInv_init env l.seq.length res)
  have hframe := pipeline_loop_frame env l l.seq.length in_fd out_fd (m + 1) 0 in_fd [] W
  rw [← hm] at hspec hframe
  have hunf : execute_resolved env l in_fd out_fd W =
      match pipeline_loop env l l.seq.length in_fd out_fd l.seq.length 0 in_fd [] W with
      | (none, w1) => (EXIT_FAILURE, w1)
      | (some pids, w1) =>
        if l.bg = false then
          (EXIT_SUCCESS, wait_all (close_if_open (close_if_open w1 in_fd) out_fd) pids)
        else
          (EXIT_SUCCESS, call_add_job (close_if_open (close_if_open w1 in_fd) out_fd)
            (pids.headD 0) ((l.seq.getD 0 []).headD [])) := by
    simp only [execute_resolved, hne1, if_false]
  rw [hunf]
  rcases hspec with ⟨hfail, hj⟩ | ⟨pids, w1, hrun, post, horacle⟩
  · left
    refine ⟨?_, hj⟩
    cases hl : pipeline_loop env l l.seq.length in_fd out_fd l.seq.length 0 in_fd [] W with
    | mk a b =>
      rw [hl] at hfail
      simp only at hfail
      subst hfail
      rfl
  · right
    rw [hrun] at hframe ⊢
    obtain ⟨ctbl, cclosed, copened, cpipes, ckids, cjobs⟩ := close_redirs_spec res w1 post.tbl
    have hjobs := (res.jobs.trans hframe).trans cjobs
    obtain ⟨jreg, jwaited, jregd⟩ := hjobs
    have hperm : ((close_if_open (close_if_open w1 in_fd) out_fd).closed.map Prod.snd).Perm
        ((close_if_open (close_if_open w1 in_fd) out_fd).opened.map (fun e => some e.2)) := by
      rw [cclosed, copened]
      have : w1.opened.map (fun e => some e.2) = (w1.opened.map Prod.snd).map some := by
        simp [List.map_map]
      rw [this, post.opened, List.map_append]
      exact List.perm_append_comm.trans (List.Perm.append_left _ post.closed)
    cases hbg : l.bg with
    | false =>
      simp only [if_true]
      refine ⟨trivial, ?_⟩
      obtain ⟨a, b, c, d, e, f, g, h⟩ :=
        wait_all_spec pids (close_if_open (close_if_open w1 in_fd) out_fd)
      exact
        { tbl := fun fd => by rw [b]; exact ctbl fd
          opened := by rw [c, copened]; exact post.opened
          closed := by rw [d, c]; exact hperm
          pipes := by rw [e, cpipes]; exact post.pipes
          kids := by rw [f, ckids]; exact post.kids
          kid := fun j c hc => by rw [f, ckids] at hc; exact post.kid j c hc
          fg := fun _ => by
            refine ⟨?_, ?_, ?_⟩
            · rw [a, f, ckids, jwaited, post.pids_eq]; rfl
            · rw [g, jregd]; rfl
            · rw [h, jreg]; rfl
          bg := fun h => by simp [hbg] at h
          oracle := fun j hj => horacle j (Nat.zero_le j) hj }
    | true =>
      simp only [Bool.true_eq_false, if_false]
      refine ⟨trivial, ?_⟩
      exact
        { tbl := fun fd => ctbl fd
          opened := by show (close_if_open _ _).opened.map _ = _; rw [copened]; exact post.opened
          closed := hperm
          pipes := by show (close_if_open _ _).pipes.length = _; rw [cpipes]; exact post.pipes
          kids := by show (close_if_open _ _).children.length = _; rw [ckids]; exact post.kids
          kid := fun j c hc => by
            change (close_if_open _ _).children.get? j = some c at hc
            rw [ckids] at hc; exact post.kid j c hc
          fg := fun h => by simp [hbg] at h
          bg := fun _ => by
            have hk : (call_add_job (close_if_open (close_if_open w1 in_fd) out_fd)
                (pids.headD 0) ((l.seq.getD 0 []).headD [])).children = w1.children := ckids
            rw [hk, ← post.pids_eq]
            refine ⟨?_, ?_, ?_⟩
            · show (close_if_open _ _).waited = _
              rw [jwaited]; rfl
            · show (close_if_open _ _).registered ++ _ = _
              rw [jregd]; rfl
            · show (add_job (close_if_open _ _).reg _ _).2 = _
              rw [jreg]; rfl
          oracle := fun j hj => horacle j (Nat.zero_le j) hj }

theorem execute_resolved_single (env : Env) (l : cmdline) (init : FdTable) (reg : JobTable)
    (in_fd out_fd : Int) (W : World) (hn : l.seq.length = 1)
    (res : Resolved init reg l in_fd out_fd W) :
    ((execute_resolved env l in_fd out_fd W).1 = EXIT_FAILURE ∧
      ∃ j, j < l.seq.length ∧
        ((j + 1 < l.seq.length ∧ env.pipe_ok j = false) ∨ env.fork_pid j = none)) ∨
    ((execute_resolved env l in_fd out_fd W).1 = EXIT_SUCCESS ∧
      ExecPost env l init reg W.fds in_fd out_fd (execute_resolved env l in_fd out_fd W).2) := by
  cases hf : env.fork_pid 0 with
  | none =>
    left
    refine ⟨?_, 0, by omega, Or.inr hf⟩
    simp [execute_resolved, hn, execute_command, hf]
  | some p =>
    right
    have hpid : ¬ ((p : Int) < 0) := by omega
    obtain ⟨ctbl, cclosed, copened, cpipes, ckids, cjobs⟩ := close_redirs_spec res
      { W with children := W.children ++
          [{ pid := (p : Int), file := (l.seq.getD 0 []).head?, argv := l.seq.getD 0 [],
             fds := execute_command_child W.fds in_fd out_fd }] } (fun _ => rfl)
    obtain ⟨jreg, jwaited, jregd⟩ := res.jobs.trans (SameJobs.trans ⟨rfl, rfl, rfl⟩ cjobs)
    have hch0 : W.children ++ [Child.mk (p : Int) (l.seq.getD 0 []).head? (l.seq.getD 0 [])
        (execute_command_child W.fds in_fd out_fd)] =
        [Child.mk (p : Int) (l.seq.getD 0 []).head? (l.seq.getD 0 [])
          (execute_command_child W.fds in_fd out_fd)] := by
      rw [res.children]; rfl
    replace ckids := ckids.trans hch0
    have hkid : ∀ j c, [Child.mk (p : Int) (l.seq.getD 0 []).head? (l.seq.getD 0 [])
        (execute_command_child W.fds in_fd out_fd)].get? j = some c →
        ChildSpec env l W.fds in_fd out_fd l.seq.length j c := by
      intro j c hc
      cases j with
      | succ k => simp at hc
      | zero =>
        simp only [List.get?_cons_zero, Option.some.injEq] at hc
        subst hc
        refine ⟨⟨p, hf, rfl⟩, rfl, rfl, ?_⟩
        intro hstd
        rw [hn]
        exact execute_command_child_view W.fds in_fd out_fd hstd (resolved_hin res)
          (resolved_hout res) (resolved_hio res)
    have hperm : ((close_if_open (close_if_open
          { W with children := W.children ++
              [{ pid := (p : Int), file := (l.seq.getD 0 []).head?, argv := l.seq.getD 0 [],
                 fds := execute_command_child W.fds in_fd out_fd }] } in_fd) out_fd).closed.map
            Prod.snd).Perm
        ((close_if_open (close_if_open
          { W with children := W.children ++
              [{ pid := (p : Int), file := (l.seq.getD 0 []).head?, argv := l.seq.getD 0 [],
                 fds := execute_command_child W.fds in_fd out_fd }] } in_fd) out_fd).opened.map
            (fun e => some e.2)) := by
      rw [cclosed, copened]
      show (W.closed.map Prod.snd ++ _).Perm (W.opened.map _)
      have : W.opened.map (fun e => some e.2) = (W.opened.map Prod.snd).map some := by
        simp [List.map_map]
      rw [this, res.opened, res.closed]
      simp
    have hop : W.opened.map Prod.snd = redirObjs l ++ pipeObjs (l.seq.length - 1) := by
      rw [res.opened, hn]; simp [pipeObjs]
    have horacle : ∀ j, j < l.seq.length →
        (j + 1 < l.seq.length → env.pipe_ok j = true) ∧ env.fork_pid j ≠ none := by
      intro j hj
      have : j = 0 := by omega
      subst this
      exact ⟨fun h => by omega, by simp [hf]⟩
    cases hbg : l.bg with
    | false =>
      simp only [execute_resolved, hn, if_true, execute_command, hf, hpid, if_false, hbg]
      refine ⟨trivial, ?_⟩
      exact
        { tbl := fun fd => ctbl fd
          opened := by show (close_if_open _ _).opened.map _ = _; rw [copened]; exact hop
          closed := hperm
          pipes := by
            show (close_if_open _ _).pipes.length = _
            rw [cpipes]; show W.pipes.length = _; rw [res.pipes, hn]; rfl
          kids := by
            show (close_if_open _ _).children.length = _
            rw [ckids, hn]; rfl
          kid := fun j c hc => by
            change (close_if_open _ _).children.get? j = some c at hc
            rw [ckids] at hc; exact hkid j c hc
          fg := fun _ => by
            refine ⟨?_, ?_, ?_⟩
            · show (close_if_open _ _).waited ++ _ = (close_if_open _ _).children.map _
              rw [jwaited, ckids]; rfl
            · show (close_if_open _ _).registered = _
              rw [jregd]; rfl
            · show (close_if_open _ _).reg = _
              rw [jreg]; rfl
          bg := fun h => by simp [hbg] at h
          oracle := horacle }
    | true =>
      simp only [execute_resolved, hn, if_true, execute_command, hf, hpid, if_false, hbg,
        Bool.true_eq_false]
      refine ⟨trivial, ?_⟩
      exact
        { tbl := fun fd => ctbl fd
          opened := by show (close_if_open _ _).opened.map _ = _; rw [copened]; exact hop
          closed := hperm
          pipes := by
            show (close_if_open _ _).pipes.length = _
            rw [cpipes]; show W.pipes.length = _; rw [res.pipes, hn]; rfl
          kids := by
            show (close_if_open _ _).children.length = _
            rw [ckids, hn]; rfl
          kid := fun j c hc => by
            change (close_if_open _ _).children.get? j = some c at hc
            rw [ckids] at hc; exact hkid j c hc
          fg := fun h => by simp [hbg] at h
          bg := fun _ => by
            refine ⟨?_, ?_, ?_⟩
            · show (close_if_open _ _).waited = _
              rw [jwaited]; rfl
            · show (close_if_open _ _).registered ++ _ = [((List.map Child.pid
                (close_if_open _ _).children).headD 0, _)]
              rw [jregd, ckids]; rfl
            · show (add_job (close_if_open _ _).reg _ _).2 = (add_job reg ((List.map Child.pid
                (close_if_open _ _).children).headD 0) _).2
              rw [jreg, ckids]; rfl
          oracle := horacle }

theorem stdOpen_of_resolved {init : FdTable} {reg : JobTable} {l : cmdline} {in_fd out_fd : Int}
    {W : World} (res : Resolved init reg l in_fd out_fd W)
    (h0 : init.lookup 0 ≠ none) (h1 : init.lookup 1 ≠ none) :
    StdOpen W.fds in_fd out_fd := by
  have hi : in_fd ≠ 0 ∧ in_fd ≠ 1 := by
    cases h : l.in_ with
    | none => rw [res.in_none h]; omega
    | some p =>
      obtain ⟨-, b, -⟩ := res.in_some p h
      exact ⟨fun e => h0 (e ▸ b), fun e => h1 (e ▸ b)⟩
  have ho : out_fd ≠ 0 ∧ out_fd ≠ 1 := by
    cases h : l.out with
    | none => rw [res.out_none h]; omega
    | some p =>
      obtain ⟨-, b, -, -⟩ := res.out_some p h
      exact ⟨fun e => h0 (e ▸ b), fun e => h1 (e ▸ b)⟩
  refine ⟨?_, ?_, hi.1, hi.2, ho.1, ho.2⟩
  · rw [res.tbl 0 (fun e => hi.1 e.symm) (fun e => ho.1 e.symm)]; exact h0
  · rw [res.tbl 1 (fun e => hi.2 e.symm) (fun e => ho.2 e.symm)]; exact h1

theorem execute_spec (env : Env) (l : cmdline) (init : FdTable) (reg : JobTable)
    (hseq : l.seq ≠ []) :
    ((execute env l (World.start init reg)).1 = EXIT_FAILURE ∧ SyscallFails env l) ∨
    ((execute env l (World.start init reg)).1 = EXIT_SUCCESS ∧ SyscallsSucceed env l ∧
      ∃ in_fd out_fd W, Resolved init reg l in_fd out_fd W ∧
        ExecPost env l init reg W.fds in_fd out_fd (execute env l (World.start init reg)).2) := by
  have hlen : 0 < l.seq.length := List.length_pos.mpr hseq
  rcases execute_resolves env l init reg hseq with
    ⟨hfail, hwhy⟩ | ⟨in_fd, out_fd, W, hex, res, hoi, hoo⟩
  · left
    refine ⟨hfail, ?_⟩
    rcases hwhy with h | h
    · exact Or.inl h
    · exact Or.inr (Or.inl h)
  · rw [hex]
    have hcases : ((execute_resolved env l in_fd out_fd W).1 = EXIT_FAILURE ∧
        ∃ j, j < l.seq.length ∧
          ((j + 1 < l.seq.length ∧ env.pipe_ok j = false) ∨ env.fork_pid j = none)) ∨
        ((execute_resolved env l in_fd out_fd W).1 = EXIT_SUCCESS ∧
          ExecPost env l init reg W.fds in_fd out_fd
            (execute_resolved env l in_fd out_fd W).2) := by
      by_cases h1 : l.seq.length = 1
      · exact execute_resolved_single env l init reg in_fd out_fd W h1 res
      · exact execute_resolved_multi env l init reg in_fd out_fd W (by omega) res
    rcases hcases with ⟨hfail, hj⟩ | ⟨hok, post⟩
    · exact Or.inl ⟨hfail, Or.inr (Or.inr hj)⟩
    · right
      refine ⟨hok, ⟨hoi, hoo, fun j hj => (post.oracle j (by omega)).1 hj,
        fun j hj => (post.oracle j hj).2⟩, in_fd, out_fd, W, res, post⟩

theorem not_fails_of_succeed {env : Env} {l : cmdline} (h : SyscallsSucceed env l) :
    ¬ SyscallFails env l := by
  obtain ⟨a, b, c, d⟩ := h
  rintro (⟨h1, h2⟩ | ⟨h1, h2⟩ | ⟨j, hj, ⟨h1, h2⟩ | h2⟩)
  · rw [a h1] at h2; cases h2
  · rw [b h1] at h2; cases h2
  · rw [c j h1] at h2; cases h2
  · exact d j hj h2

theorem execute_succeeds (env : Env) (l : cmdline) (init : FdTable) (reg : JobTable)
    (hseq : l.seq ≠ []) (hs : SyscallsSucceed env l) :
    (execute env l (World.start init reg)).1 = EXIT_SUCCESS ∧
      ∃ in_fd out_fd W, Resolved init reg l in_fd out_fd W ∧
        ExecPost env l init reg W.fds in_fd out_fd (execute env l (World.start init reg)).2 := by
  rcases execute_spec env l init reg hseq with ⟨-, hf⟩ | ⟨hok, -, h⟩
  · exact absurd hf (not_fails_of_succeed hs)
  · exact ⟨hok, h⟩

theorem mem_pipeObjs (k : Nat) (o : Obj) :
    o ∈ pipeObjs k ↔ ∃ j, j < k ∧ (o = Obj.pipeRead j ∨ o = Obj.pipeWrite j) := by
  induction k with
  | zero => simp [pipeObjs]
  | succ n ih =>
    simp only [pipeObjs, List.mem_append, ih, List.mem_cons, List.mem_singleton, List.mem_nil_iff,
      or_false]
    constructor
    · rintro (⟨j, hj, h⟩ | h)
      · exact ⟨j, by omega, h⟩
      · exact ⟨n, by omega, h⟩
    · rintro ⟨j, hj, h⟩
      by_cases e : j = n
      · subst e; exact Or.inr h
      · exact Or.inl ⟨j, by omega, h⟩

theorem pipeObjs_nodup (k : Nat) : (pipeObjs k).Nodup := by
  induction k with
  | zero => simp [pipeObjs]
  | succ n ih =>
    simp only [pipeObjs]
    rw [List.nodup_append]
    refine ⟨ih, by simp, ?_⟩
    intro o h1 h2
    obtain ⟨j, hj, h⟩ := (mem_pipeObjs n o).mp h1
    simp only [List.mem_cons, List.mem_singleton, List.mem_nil_iff, or_false] at h2
    rcases h with h | h <;> rcases h2 with h2 | h2 <;> rw [h] at h2 <;> cases h2 <;> omega

theorem opened_nodup (l : cmdline) (k : Nat) : (redirObjs l ++ pipeObjs k).Nodup := by
  rw [List.nodup_append]
  refine ⟨?_, pipeObjs_nodup k, ?_⟩
  · unfold redirObjs
    cases l.in_ <;> cases l.out <;> simp
  · intro o h1 h2
    obtain ⟨j, -, h⟩ := (mem_pipeObjs k o).mp h2
    unfold redirObjs at h1
    cases hi : l.in_ <;> cases ho : l.out <;> simp [hi, ho] at h1 <;>
      rcases h with h | h <;> rw [h] at h1 <;> simp at h1

/-! ## Properties of execute -/

theorem child_view_stdin {init : FdTable} {reg : JobTable} {l : cmdline} {in_fd out_fd : Int}
    {W : World} (res : Resolved init reg l in_fd out_fd W)
    (hstd : StdOpen W.fds in_fd out_fd) (n i : Nat) :
    child_view W.fds in_fd out_fd n i STDIN_FILENO =
      if 0 < i then some (Obj.pipeRead (i - 1))
      else match l.in_ with
        | some path => some (Obj.inFile path)
        | none => init.lookup STDIN_FILENO := by
  obtain ⟨-, -, hi0, -, ho0, -⟩ := hstd
  simp only [child_view, STDIN_FILENO, if_true]
  rcases Nat.eq_zero_or_pos i with h | h
  · subst h
    simp only [if_true, Nat.lt_irrefl, if_false]
    cases hin : l.in_ with
    | none =>
      have e := res.in_none hin
      subst e
      simp only [ne_eq, not_true_eq_false, if_false]
      exact res.tbl 0 (by decide) (fun e => ho0 e.symm)
    | some p =>
      obtain ⟨a, -, c⟩ := res.in_some p hin
      have : in_fd ≠ -1 := by omega
      simp only [ne_eq, this, not_false_eq_true, if_true, c]
  · have : i ≠ 0 := by omega
    simp [this, h]

theorem child_view_stdout {init : FdTable} {reg : JobTable} {l : cmdline} {in_fd out_fd : Int}
    {W : World} (res : Resolved init reg l in_fd out_fd W)
    (hstd : StdOpen W.fds in_fd out_fd) (n i : Nat) :
    child_view W.fds in_fd out_fd n i STDOUT_FILENO =
      if i + 1 < n then some (Obj.pipeWrite i)
      else match l.out with
        | some path => some (Obj.outFile path)
        | none => init.lookup STDOUT_FILENO := by
  obtain ⟨-, -, -, hi1, -, ho1⟩ := hstd
  simp only [child_view, STDOUT_FILENO, if_true]
  have h10 : ¬ ((1 : Int) = 0) := by decide
  simp only [h10, if_false]
  by_cases h : i + 1 < n
  · simp [h]
  · simp only [h, if_false]
    cases hout : l.out with
    | none =>
      have e := res.out_none hout
      subst e
      simp only [ne_eq, not_true_eq_false, if_false]
      exact res.tbl 1 (fun e => hi1 e.symm) (by decide)
    | some p =>
      obtain ⟨a, -, c, -⟩ := res.out_some p hout
      have : out_fd ≠ -1 := by omega
      simp only [ne_eq, this, not_false_eq_true, if_true, c]

theorem get?_of_lt_length {α : Type} (xs : List α) (i : Nat) (h : i < xs.length) :
    ∃ c, xs.get? i = some c := ⟨xs.get ⟨i, h⟩, List.get?_eq_get h⟩

theorem syscallsSucceed_env_ok (l : cmdline) : SyscallsSucceed env_ok l :=
  ⟨fun _ => rfl, fun _ => rfl, fun _ _ => rfl, fun _ _ => by simp [env_ok]⟩

/-- C1, as stated, fails: for `cat > out.txt` in a shell whose descriptor 1 is
closed at the call, every `open` and `fork` succeeds, `open` hands out descriptor
1 for out.txt, and the child's `dup2(1, 1); close(1)` leaves its standard output
closed instead of referring to out.txt. -/
theorem execute_closes_redirected_stdout :
    cat_out.seq ≠ [] ∧ SyscallsSucceed env_ok cat_out ∧
    fds_stdout_closed.lookup STDOUT_FILENO = none ∧
    (execute env_ok cat_out (World.start fds_stdout_closed JobTable.initial)).1
      = EXIT_SUCCESS ∧
    (execute env_ok cat_out (World.start fds_stdout_closed JobTable.initial)).2.opened
      = [(1, Obj.outFile s_out_txt)] ∧
    (execute env_ok cat_out (World.start fds_stdout_closed JobTable.initial)).2.children.map
        (fun c => c.fds.lookup STDOUT_FILENO)
      = [none] ∧
    (execute env_ok cat_out (World.start fds_stdout_closed JobTable.initial)).2.children.map
        (fun c => c.fds.lookup STDOUT_FILENO)
      ≠ [some (Obj.outFile s_out_txt)] :=
  ⟨by decide, syscallsSucceed_env_ok cat_out, by decide, by decide, by decide, by decide,
    by decide⟩

/-- C1, amended: when every `open`, `pipe` and `fork` succeeds, `execute` on N ≥ 1
stages spawns exactly N children and creates exactly N - 1 pipes, and child `i`
execs stage `i`'s argv; when moreover descriptors 0 and 1 are open in the shell
at the call, child `i` has as stdin the read end of pipe `i - 1` when `i > 0`,
else the opened input file when a path is given, else the inherited stdin, and as
stdout the write end of pipe `i` when `i < N - 1`, else the opened output file
when a path is given, else the inherited stdout. -/
theorem execute_wires_every_stage (env : Env) (l : cmdline) (init : FdTable) (reg : JobTable)
    (hseq : l.seq ≠ []) (hs : SyscallsSucceed env l) :
    (execute env l (World.start init reg)).2.children.length = l.seq.length ∧
    (execute env l (World.start init reg)).2.pipes.length = l.seq.length - 1 ∧
    ∀ i, i < l.seq.length →
      ∃ c, (execute env l (World.start init reg)).2.children.get? i = some c ∧
        c.argv = l.seq.getD i [] ∧
        c.file = (l.seq.getD i []).head? ∧
        (init.lookup STDIN_FILENO ≠ none → init.lookup STDOUT_FILENO ≠ none →
          c.fds.lookup STDIN_FILENO =
            (if 0 < i then some (Obj.pipeRead (i - 1))
             else match l.in_ with
               | some path => some (Obj.inFile path)
               | none => init.lookup STDIN_FILENO) ∧
          c.fds.lookup STDOUT_FILENO =
            (if i + 1 < l.seq.length then some (Obj.pipeWrite i)
             else match l.out with
               | some path => some (Obj.outFile path)
               | none => init.lookup STDOUT_FILENO)) := by
  obtain ⟨-, in_fd, out_fd, W, res, post⟩ := execute_succeeds env l init reg hseq hs
  refine ⟨post.kids, post.pipes, ?_⟩
  intro i hi
  obtain ⟨c, hc⟩ := get?_of_lt_length _ i (by rw [post.kids]; exact hi)
  obtain ⟨-, hargv, hfile, hview⟩ := post.kid i c hc
  refine ⟨c, hc, hargv, hfile, ?_⟩
  intro h0 h1
  have hstd := stdOpen_of_resolved res h0 h1
  constructor
  · rw [hview hstd, child_view_stdin res hstd]
  · rw [hview hstd, child_view_stdout res hstd]

theorem execute_wires_every_stage_witness :
    cat_sort_wc.seq ≠ [] ∧ SyscallsSucceed env_ok cat_sort_wc ∧
    std_fds.lookup STDIN_FILENO ≠ none ∧ std_fds.lookup STDOUT_FILENO ≠ none ∧
    (execute env_ok cat_sort_wc (World.start std_fds JobTable.initial)).2.children.length = 3 ∧
    (execute env_ok cat_sort_wc (World.start std_fds JobTable.initial)).2.pipes.length = 2 ∧
    ∃ c, (execute env_ok cat_sort_wc (World.start std_fds JobTable.initial)).2.children.get? 1
        = some c ∧
      c.argv = [s_sort] ∧
      c.fds.lookup STDIN_FILENO = some (Obj.pipeRead 0) ∧
      c.fds.lookup STDOUT_FILENO = some (Obj.pipeWrite 1) := by
  have h := execute_wires_every_stage env_ok cat_sort_wc std_fds JobTable.initial (by decide)
    (syscallsSucceed_env_ok cat_sort_wc)
  obtain ⟨c, hc, hargv, -, hw⟩ := h.2.2 1 (by decide)
  obtain ⟨hi, ho⟩ := hw (by decide) (by decide)
  refine ⟨by decide, syscallsSucceed_env_ok cat_sort_wc, by decide, by decide, h.1, h.2.1,
    c, hc, ?_, ?_, ?_⟩
  · rw [hargv]; rfl
  · rw [hi]; rfl
  · rw [ho]; rfl

theorem headD_map_pid (cs : List Child) (c : Child) (h : cs.get? 0 = some c) :
    (cs.map Child.pid).headD 0 = c.pid := by
  cases cs with
  | nil => simp at h
  | cons x xs =>
    simp at h
    subst h
    rfl

/-- C6: when all spawns succeed, a foreground `execute` waits once for each of the
N pids, in spawn order, and makes no registry call: the job table is untouched; a
background `execute` waits for nothing and makes exactly one `add_job` call, with
the pid of the first stage and the first word of the first stage: the job table
afterwards is what that one `add_job` leaves, which, when the table was not full,
is the old entries followed by one new entry with that pid and name. -/
theorem execute_waits_or_registers (env : Env) (l : cmdline) (init : FdTable) (reg : JobTable)
    (hseq : l.seq ≠ []) (hs : SyscallsSucceed env l) :
    (l.bg = false →
      (execute env l (World.start init reg)).2.waited.length = l.seq.length ∧
      (∀ j, j < l.seq.length → ∃ p, env.fork_pid j = some p ∧
        (execute env l (World.start init reg)).2.waited.get? j = some (p : Int)) ∧
      (execute env l (World.start init reg)).2.registered = [] ∧
      (execute env l (World.start init reg)).2.reg = reg) ∧
    (l.bg = true →
      (execute env l (World.start init reg)).2.waited = [] ∧
      ∃ p, env.fork_pid 0 = some p ∧
        (execute env l (World.start init reg)).2.registered
          = [((p : Int), (l.seq.getD 0 []).headD [])] ∧
        (execute env l (World.start init reg)).2.reg
          = (add_job reg (p : Int) ((l.seq.getD 0 []).headD [])).2 ∧
        (reg.jobs.length = MAX_JOBS → reg.job_count < MAX_JOBS →
          (execute env l (World.start init reg)).2.reg.entries
            = reg.entries ++ [new_entry reg (p : Int) ((l.seq.getD 0 []).headD [])] ∧
          (new_entry reg (p : Int) ((l.seq.getD 0 []).headD [])).pid = (p : Int) ∧
          (new_entry reg (p : Int) ((l.seq.getD 0 []).headD [])).job_id
            = (reg.job_count : Int) + 1)) := by
  obtain ⟨-, in_fd, out_fd, W, res, post⟩ := execute_succeeds env l init reg hseq hs
  have hlen : 0 < l.seq.length := List.length_pos.mpr hseq
  constructor
  · intro hbg
    obtain ⟨hw, hr, hreg⟩ := post.fg hbg
    refine ⟨by rw [hw, List.length_map, post.kids], ?_, hr, hreg⟩
    intro j hj
    obtain ⟨c, hc⟩ := get?_of_lt_length _ j (by rw [post.kids]; exact hj)
    obtain ⟨⟨p, hp, hpid⟩, -⟩ := post.kid j c hc
    refine ⟨p, hp, ?_⟩
    rw [hw, List.get?_eq_getElem?, List.getElem?_map, ← List.get?_eq_getElem?, hc, ← hpid]
    rfl
  · intro hbg
    obtain ⟨hw, hr, hreg⟩ := post.bg hbg
    obtain ⟨c, hc⟩ := get?_of_lt_length _ 0 (by rw [post.kids]; exact hlen)
    obtain ⟨⟨p, hp, hpid⟩, -⟩ := post.kid 0 c hc
    rw [headD_map_pid _ c hc, hpid] at hr hreg
    refine ⟨hw, p, hp, hr, hreg, ?_⟩
    intro hjl hlt
    rw [hreg]
    exact ⟨add_job_entries_of_lt reg _ _ hjl hlt, rfl, rfl⟩

theorem execute_waits_or_registers_witness :
    cat_wc_bg.seq ≠ [] ∧ SyscallsSucceed env_ok cat_wc_bg ∧
    (cat_wc_bg.bg = true →
      (execute env_ok cat_wc_bg (World.start std_fds JobTable.initial)).2.waited = [] ∧
      ∃ p, env_ok.fork_pid 0 = some p ∧
        (execute env_ok cat_wc_bg (World.start std_fds JobTable.initial)).2.registered
          = [((p : Int), (cat_wc_bg.seq.getD 0 []).headD [])] ∧
        (execute env_ok cat_wc_bg (World.start std_fds JobTable.initial)).2.reg
          = (add_job JobTable.initial (p : Int) ((cat_wc_bg.seq.getD 0 []).headD [])).2) ∧
    (execute env_ok cat_wc_bg (World.start std_fds JobTable.initial)).2.reg.entries.map
        (fun j => (j.pid, j.job_id, j.command.take 4))
      = [(100, 1, [99, 97, 116, 0])] := by
  have h := (execute_waits_or_registers env_ok cat_wc_bg std_fds JobTable.initial (by decide)
    (syscallsSucceed_env_ok cat_wc_bg)).2
  refine ⟨by decide, syscallsSucceed_env_ok cat_wc_bg, ?_, by decide⟩
  intro hbg
  obtain ⟨hw, p, hp, hr, hreg, -⟩ := h hbg
  exact ⟨hw, p, hp, hr, hreg⟩

set_option maxRecDepth 100000 in
/-- C5, as stated, fails: with the background flag set, all spawns succeeding and
the registry full, `execute` does not return the failure status. -/
theorem execute_full_registry_reports_success :
    cat_wc_bg.bg = true ∧ full_table.job_count = MAX_JOBS ∧ SyscallsSucceed env_ok cat_wc_bg ∧
    (add_job full_table 100 s_cat).1 = -1 ∧
    (execute env_ok cat_wc_bg (World.start std_fds full_table)).2.registered
      = [(100, s_cat)] ∧
    (execute env_ok cat_wc_bg (World.start std_fds full_table)).1 = EXIT_SUCCESS ∧
    (execute env_ok cat_wc_bg (World.start std_fds full_table)).1 ≠ EXIT_FAILURE :=
  ⟨rfl, by decide, syscallsSucceed_env_ok cat_wc_bg, by decide, by decide, by decide,
    by decide⟩

/-- C5, amended: with the background flag set, all spawns succeeding and the
registry full, `execute` makes its one `add_job` call, drops the -1 it returns,
returns `EXIT_SUCCESS`, and the job table is unchanged. -/
theorem execute_background_full_registry (env : Env) (l : cmdline) (init : FdTable)
    (reg : JobTable) (hseq : l.seq ≠ []) (hs : SyscallsSucceed env l) (hbg : l.bg = true)
    (hfull : reg.job_count = MAX_JOBS) :
    (execute env l (World.start init reg)).1 = EXIT_SUCCESS ∧
    (execute env l (World.start init reg)).2.reg = reg ∧
    (execute env l (World.start init reg)).2.registered.length = 1 := by
  obtain ⟨hok, in_fd, out_fd, W, res, post⟩ := execute_succeeds env l init reg hseq hs
  obtain ⟨-, hr, hreg⟩ := post.bg hbg
  refine ⟨hok, ?_, by rw [hr]; rfl⟩
  rw [hreg, add_job_fst_of_ge reg _ _ (Nat.le_of_eq hfull.symm)]

set_option maxRecDepth 100000 in
theorem execute_background_full_registry_witness :
    cat_wc_bg.seq ≠ [] ∧ SyscallsSucceed env_ok cat_wc_bg ∧ cat_wc_bg.bg = true ∧
    full_table.job_count = MAX_JOBS ∧
    (execute env_ok cat_wc_bg (World.start std_fds full_table)).1 = EXIT_SUCCESS ∧
    (execute env_ok cat_wc_bg (World.start std_fds full_table)).2.reg = full_table :=
  ⟨by decide, syscallsSucceed_env_ok cat_wc_bg, rfl, by decide,
    (execute_background_full_registry env_ok cat_wc_bg std_fds full_table (by decide)
      (syscallsSucceed_env_ok cat_wc_bg) rfl (by decide)).1,
    (execute_background_full_registry env_ok cat_wc_bg std_fds full_table (by decide)
      (syscallsSucceed_env_ok cat_wc_bg) rfl (by decide)).2.1⟩

/-- C7: when `execute` on N ≥ 1 stages returns success, the shell's descriptor
table is what it was before the call; what the shell opened are the redirection
files and both ends of the N - 1 pipes, all distinct; what it closed is a
rearrangement of what it opened, so each is closed exactly once; and no `close`
was applied to a descriptor that was not open. -/
theorem execute_closes_what_it_opened (env : Env) (l : cmdline) (init : FdTable)
    (reg : JobTable) (hseq : l.seq ≠ [])
    (hok : (execute env l (World.start init reg)).1 = EXIT_SUCCESS) :
    (∀ fd, (execute env l (World.start init reg)).2.fds.lookup fd = init.lookup fd) ∧
    (execute env l (World.start init reg)).2.opened.map Prod.snd
      = redirObjs l ++ pipeObjs (l.seq.length - 1) ∧
    ((execute env l (World.start init reg)).2.opened.map Prod.snd).Nodup ∧
    ((execute env l (World.start init reg)).2.closed.map Prod.snd).Perm
      ((execute env l (World.start init reg)).2.opened.map (fun e => some e.2)) ∧
    (∀ e, e ∈ (execute env l (World.start init reg)).2.closed → e.2 ≠ none) := by
  rcases execute_spec env l init reg hseq with
    ⟨hfail, -⟩ | ⟨-, -, in_fd, out_fd, W, res, post⟩
  · rw [hfail] at hok
    exact absurd hok (by decide)
  · refine ⟨post.tbl, post.opened, ?_, post.closed, ?_⟩
    · rw [post.opened]; exact opened_nodup l _
    · intro e he hnone
      have hmem : e.2 ∈ (execute env l (World.start init reg)).2.closed.map Prod.snd :=
        List.mem_map_of_mem _ he
      have := (post.closed.mem_iff).mp hmem
      rw [hnone] at this
      simp at this

theorem execute_closes_what_it_opened_witness :
    cat_sort_wc.seq ≠ [] ∧
    (execute env_ok cat_sort_wc (World.start std_fds JobTable.initial)).1 = EXIT_SUCCESS ∧
    ∀ fd, (execute env_ok cat_sort_wc (World.start std_fds JobTable.initial)).2.fds.lookup fd
      = std_fds.lookup fd :=
  ⟨by decide, by decide,
    (execute_closes_what_it_opened env_ok cat_sort_wc std_fds JobTable.initial (by decide)
      (by decide)).1⟩

theorem noPipeEnds_of_resolved {init : FdTable} {reg : JobTable} {l : cmdline}
    {in_fd out_fd : Int} {W : World} (res : Resolved init reg l in_fd out_fd W)
    (hinit : NoPipeEnds init) : NoPipeEnds W.fds := by
  intro fd k
  by_cases e1 : fd = in_fd
  · subst e1
    cases h : l.in_ with
    | none =>
      rw [res.in_none h, lookup_neg _ _ (by decide)]
      simp
    | some p =>
      obtain ⟨-, -, c⟩ := res.in_some p h
      rw [c]; simp
  · by_cases e2 : fd = out_fd
    · subst e2
      cases h : l.out with
      | none =>
        rw [res.out_none h, lookup_neg _ _ (by decide)]
        simp
      | some p =>
        obtain ⟨-, -, c, -⟩ := res.out_some p h
        rw [c]; simp
    · rw [res.tbl fd e1 e2]
      exact hinit fd k

theorem child_view_pipeWrite (T0 : FdTable) (in_fd out_fd : Int) (n i j : Nat) (fd : Int)
    (hT : NoPipeEnds T0) (hi : i + 1 < n) :
    child_view T0 in_fd out_fd n j fd = some (Obj.pipeWrite i) ↔
      (j = i ∧ fd = STDOUT_FILENO) := by
  have hw : ∀ x, T0.lookup x ≠ some (Obj.pipeWrite i) := fun x => (hT x i).2
  unfold child_view STDOUT_FILENO
  by_cases e0 : fd = 0
  · subst e0
    simp only [if_true]
    have : ¬ ((0 : Int) = 1) := by decide
    simp only [this, and_false, iff_false]
    by_cases ej : j = 0
    · simp only [ej, if_true]
      split
      · exact hw _
      · exact hw _
    · simp [ej]
  · simp only [e0, if_false]
    by_cases e1 : fd = 1
    · subst e1
      simp only [if_true, and_true]
      by_cases hj : j + 1 < n
      · simp [hj]
      · simp only [hj, if_false]
        have hji : j ≠ i := by omega
        simp only [hji, iff_false]
        split
        · exact hw _
        · exact hw _
    · simp only [e1, if_false, and_false, iff_false]
      split
      · simp
      · split
        · simp
        · exact hw _

theorem child_view_pipeRead (T0 : FdTable) (in_fd out_fd : Int) (n i j : Nat) (fd : Int)
    (hT : NoPipeEnds T0) :
    child_view T0 in_fd out_fd n j fd = some (Obj.pipeRead i) ↔
      (j = i + 1 ∧ fd = STDIN_FILENO) := by
  have hw : ∀ x, T0.lookup x ≠ some (Obj.pipeRead i) := fun x => (hT x i).1
  unfold child_view STDIN_FILENO
  by_cases e0 : fd = 0
  · subst e0
    simp only [if_true, and_true]
    by_cases ej : j = 0
    · simp only [ej, if_true]
      have : ¬ (0 = i + 1) := by omega
      simp only [this, iff_false]
      split
      · exact hw _
      · exact hw _
    · simp only [ej, if_false, Option.some.injEq, Obj.pipeRead.injEq]
      omega
  · simp only [e0, if_false, and_false, iff_false]
    by_cases e1 : fd = 1
    · subst e1
      simp only [if_true]
      split
      · simp
      · split
        · exact hw _
        · exact hw _
    · simp only [e1, if_false]
      split
      · simp
      · split
        · simp
        · exact hw _

/-- C9, amended: for N ≥ 2 stages with all spawns succeeding, in a shell whose
descriptors 0 and 1 are open at the call and hold no end of a pipe this call is
yet to create, and every pipe `i`, in the descriptor tables the children have at
`execvp`: the write end of pipe `i` occurs only in the child of stage `i`, only as
its stdout, and the read end only in the child of stage `i + 1`, only as its
stdin; the shell holds neither end when `execute` returns. -/
theorem pipe_ends_only_in_adjacent_stages (env : Env) (l : cmdline) (init : FdTable)
    (reg : JobTable) (hn : 2 ≤ l.seq.length) (hs : SyscallsSucceed env l)
    (h0 : init.lookup STDIN_FILENO ≠ none) (h1 : init.lookup STDOUT_FILENO ≠ none)
    (hinit : NoPipeEnds init) :
    (execute env l (World.start init reg)).2.children.length = l.seq.length ∧
    ∀ i, i + 1 < l.seq.length →
      (∀ j c, (execute env l (World.start init reg)).2.children.get? j = some c → ∀ fd,
        (c.fds.lookup fd = some (Obj.pipeWrite i) ↔ (j = i ∧ fd = STDOUT_FILENO)) ∧
        (c.fds.lookup fd = some (Obj.pipeRead i) ↔ (j = i + 1 ∧ fd = STDIN_FILENO))) ∧
      (∀ fd,
        (execute env l (World.start init reg)).2.fds.lookup fd ≠ some (Obj.pipeWrite i) ∧
        (execute env l (World.start init reg)).2.fds.lookup fd ≠ some (Obj.pipeRead i)) := by
  have hseq : l.seq ≠ [] := by
    intro e
    rw [e] at hn
    simp at hn
  obtain ⟨-, in_fd, out_fd, W, res, post⟩ := execute_succeeds env l init reg hseq hs
  have hstd := stdOpen_of_resolved res h0 h1
  have hT := noPipeEnds_of_resolved res hinit
  refine ⟨post.kids, ?_⟩
  intro i hi
  constructor
  · intro j c hc fd
    obtain ⟨-, -, -, hview⟩ := post.kid j c hc
    rw [hview hstd fd]
    exact ⟨child_view_pipeWrite W.fds in_fd out_fd _ i j fd hT hi,
      child_view_pipeRead W.fds in_fd out_fd _ i j fd hT⟩
  · intro fd
    rw [post.tbl fd]
    exact ⟨(hinit fd i).2, (hinit fd i).1⟩

theorem noPipeEnds_std_fds : NoPipeEnds std_fds := by
  intro fd k
  unfold FdTable.lookup std_fds
  by_cases h : fd < 0
  · simp [h]
  · simp only [h, if_false]
    have h3 : fd.toNat = 0 ∨ fd.toNat = 1 ∨ fd.toNat = 2 ∨ 3 ≤ fd.toNat := by omega
    rcases h3 with h3 | h3 | h3 | h3
    · rw [h3]; simp
    · rw [h3]; simp
    · rw [h3]; simp
    · rw [List.getD_eq_default _ _ (by simpa using h3)]; simp

theorem noPipeEnds_fds_stdout_closed : NoPipeEnds fds_stdout_closed := by
  intro fd k
  unfold FdTable.lookup fds_stdout_closed
  by_cases h : fd < 0
  · simp [h]
  · simp only [h, if_false]
    have h3 : fd.toNat = 0 ∨ fd.toNat = 1 ∨ fd.toNat = 2 ∨ 3 ≤ fd.toNat := by omega
    rcases h3 with h3 | h3 | h3 | h3
    · rw [h3]; simp
    · rw [h3]; simp
    · rw [h3]; simp
    · rw [List.getD_eq_default _ _ (by simpa using h3)]; simp

/-- C9, as stated, fails: for `cat | wc` in a shell whose descriptor 1 is closed at
the call, `pipe` hands out descriptors 1 and 3; the child of stage 0 dups the
write end onto 1 and then closes `pipefd[0]`, which is 1, so at `execvp` the write
end of pipe 0 is open in no child, and not as the stdout of stage 0. -/
theorem pipe_write_end_lost_when_stdout_closed :
    2 ≤ cat_wc.seq.length ∧ SyscallsSucceed env_ok cat_wc ∧
    NoPipeEnds fds_stdout_closed ∧
    fds_stdout_closed.lookup STDOUT_FILENO = none ∧
    (execute env_ok cat_wc (World.start fds_stdout_closed JobTable.initial)).1
      = EXIT_SUCCESS ∧
    (execute env_ok cat_wc (World.start fds_stdout_closed JobTable.initial)).2.pipes
      = [(1, 3)] ∧
    (execute env_ok cat_wc (World.start fds_stdout_closed JobTable.initial)).2.children.map
        Child.fds
      = [[some (Obj.inherited 0), none, some (Obj.inherited 2), none],
         [some (Obj.pipeRead 0), none, some (Obj.inherited 2), none]] ∧
    (execute env_ok cat_wc (World.start fds_stdout_closed JobTable.initial)).2.children.map
        (fun c => c.fds.lookup STDOUT_FILENO)
      ≠ [some (Obj.pipeWrite 0), none] :=
  ⟨by decide, syscallsSucceed_env_ok cat_wc, noPipeEnds_fds_stdout_closed, by decide,
    by decide, by decide, by decide, by decide⟩

theorem pipe_ends_only_in_adjacent_stages_witness :
    2 ≤ cat_sort_wc.seq.length ∧ SyscallsSucceed env_ok cat_sort_wc ∧
    std_fds.lookup STDIN_FILENO ≠ none ∧ std_fds.lookup STDOUT_FILENO ≠ none ∧
    NoPipeEnds std_fds ∧
    (execute env_ok cat_sort_wc (World.start std_fds JobTable.initial)).2.children.length
      = cat_sort_wc.seq.length :=
  ⟨by decide, syscallsSucceed_env_ok cat_sort_wc, by decide, by decide, noPipeEnds_std_fds,
    (pipe_ends_only_in_adjacent_stages env_ok cat_sort_wc std_fds JobTable.initial (by decide)
      (syscallsSucceed_env_ok cat_sort_wc) (by decide) (by decide) noPipeEnds_std_fds).1⟩

theorem loop_body_fork_fail_pipe (env : Env) (l : cmdline) (n : Nat) (in_fd out_fd : Int)
    (i : Nat) (prev : Int) (pids : List Int) (w : World)
    (hi : i + 1 < n) (hp : env.pipe_ok i = true) (hf : env.fork_pid i = none) :
    loop_body env l n in_fd out_fd i prev pids w =
      Step.failed (close_prev
        (sys_close (sys_close (sys_pipe w i).2 (sys_pipe w i).1.1) (sys_pipe w i).1.2)
        prev in_fd) := by
  simp [loop_body, hi, hp, hf]

theorem loop_body_fork_fail_last (env : Env) (l : cmdline) (n : Nat) (in_fd out_fd : Int)
    (i : Nat) (prev : Int) (pids : List Int) (w : World)
    (hi : ¬ i + 1 < n) (hf : env.fork_pid i = none) :
    loop_body env l n in_fd out_fd i prev pids w = Step.failed (close_prev w prev in_fd) := by
  simp [loop_body, hi, hf]

theorem close_prev_tbl (env : Env) (l : cmdline) (T0 : FdTable) (in_fd out_fd : Int) (n : Nat)
    (redirs : List Obj) (i : Nat) (prev : Int) (pids : List Int) (w w2 : World)
    (hin : in_fd = -1 ∨ (0 ≤ in_fd ∧ T0.lookup in_fd ≠ none))
    (inv : LoopInv env l T0 in_fd out_fd n redirs i prev pids w)
    (hsame : ∀ fd, w2.fds.lookup fd = w.fds.lookup fd) :
    ∀ fd, (close_prev w2 prev in_fd).fds.lookup fd = T0.lookup fd := by
  intro fd
  rcases Nat.eq_zero_or_pos i with hi0 | hipos
  · subst hi0
    rw [close_prev_skip _ _ _ (Or.inr (inv.prev_zero rfl)), hsame, inv.tbl]
    simp
  · obtain ⟨hpge, hpfree⟩ := inv.prev_pos hipos
    have hpm : prev ≠ -1 := by omega
    have hpin : prev ≠ in_fd := by
      rcases hin with hneg | ⟨-, hopen⟩
      · omega
      · exact fun e => hopen (e ▸ hpfree)
    rw [close_prev_do _ _ _ hpm hpin]
    show (closeFd w2.fds prev).lookup fd = _
    rw [lookup_closeFd, hsame, inv.tbl]
    by_cases e : fd = prev
    · subst e; simp [hpfree]
    · simp [e]

theorem loop_body_fail_tbl (env : Env) (l : cmdline) (T0 : FdTable) (in_fd out_fd : Int)
    (n : Nat) (redirs : List Obj) (i : Nat) (prev : Int) (pids : List Int) (w : World)
    (hin : in_fd = -1 ∨ (0 ≤ in_fd ∧ T0.lookup in_fd ≠ none))
    (inv : LoopInv env l T0 in_fd out_fd n redirs i prev pids w)
    (hfail : (i + 1 < n ∧ env.pipe_ok i = false) ∨ env.fork_pid i = none) :
    ∃ w2, loop_body env l n in_fd out_fd i prev pids w = Step.failed w2 ∧
      ∀ fd, w2.fds.lookup fd = T0.lookup fd := by
  by_cases hp : i + 1 < n ∧ env.pipe_ok i = false
  · exact ⟨_, loop_body_pipe_fail env l n in_fd out_fd i prev pids w hp.1 hp.2,
      close_prev_tbl env l T0 in_fd out_fd n redirs i prev pids w w hin inv (fun _ => rfl)⟩
  · have hf : env.fork_pid i = none := by
      rcases hfail with h | h
      · exact absurd h hp
      · exact h
    by_cases hi : i + 1 < n
    · have hpo : env.pipe_ok i = true := by
        cases h : env.pipe_ok i with
        | true => rfl
        | false => exact absurd ⟨hi, h⟩ hp
      refine ⟨_, loop_body_fork_fail_pipe env l n in_fd out_fd i prev pids w hi hpo hf, ?_⟩
      obtain ⟨r, wr, -, -, -, hrfree, hwfree, hpair, hfds, -⟩ := sys_pipe_spec w i
      apply close_prev_tbl env l T0 in_fd out_fd n redirs i prev pids w _ hin inv
      intro fd
      rw [hpair]
      show (closeFd (closeFd (sys_pipe w i).2.fds r) wr).lookup fd = _
      rw [lookup_closeFd, lookup_closeFd, hfds]
      by_cases e1 : fd = wr
      · subst e1; simp [hwfree]
      · by_cases e2 : fd = r
        · subst e2; simp [e1, hrfree]
        · simp [e1, e2]
    · exact ⟨_, loop_body_fork_fail_last env l n in_fd out_fd i prev pids w hi hf,
        close_prev_tbl env l T0 in_fd out_fd n redirs i prev pids w w hin inv (fun _ => rfl)⟩

/-- When a `pipe` or `fork` fails inside the loop, the loop ends with the parent's
descriptor table equal to the table it started with: every pipe end is closed. -/
theorem pipeline_loop_fail_tbl (env : Env) (l : cmdline) (T0 : FdTable) (in_fd out_fd : Int)
    (n : Nat) (redirs : List Obj)
    (hin : in_fd = -1 ∨ (0 ≤ in_fd ∧ T0.lookup in_fd ≠ none)) :
    ∀ (remaining i : Nat) (prev : Int) (pids : List Int) (w : World),
      i + remaining = n →
      LoopInv env l T0 in_fd out_fd n redirs i prev pids w →
      (pipeline_loop env l n in_fd out_fd remaining i prev pids w).1 = none →
      ∀ fd, (pipeline_loop env l n in_fd out_fd remaining i prev pids w).2.fds.lookup fd
        = T0.lookup fd := by
  intro remaining
  induction remaining with
  | zero =>
    intro i prev pids w _ _ hnone
    simp [pipeline_loop] at hnone
  | succ m ih =>
    intro i prev pids w hsum inv hnone
    by_cases hfail : (i + 1 < n ∧ env.pipe_ok i = false) ∨ env.fork_pid i = none
    · obtain ⟨w2, hw2, htbl⟩ := loop_body_fail_tbl env l T0 in_fd out_fd n redirs i prev pids w
        hin inv hfail
      simp only [pipeline_loop, hw2]
      exact htbl
    · have hpo : i + 1 < n → env.pipe_ok i = true := by
        intro hi
        cases h : env.pipe_ok i with
        | true => rfl
        | false => exact absurd (Or.inl ⟨hi, h⟩) hfail
      cases hf : env.fork_pid i with
      | none => exact absurd (Or.inr hf) hfail
      | some p =>
        by_cases hi : i + 1 < n
        · obtain ⟨prev2, w2, hw2, inv2⟩ := loop_inv_step env l T0 in_fd out_fd n redirs i prev
            pids w p hin hi (hpo hi) hf inv
          have hunf : pipeline_loop env l n in_fd out_fd (m + 1) i prev pids w =
              pipeline_loop env l n in_fd out_fd m (i + 1) prev2 (pids ++ [(p : Int)]) w2 := by
            simp [pipeline_loop, hw2]
          rw [hunf] at hnone ⊢
          exact ih (i + 1) prev2 (pids ++ [(p : Int)]) w2 (by omega) inv2 hnone
        · have hm : m = 0 := by omega
          subst hm
          simp [pipeline_loop, loop_body_last env l n in_fd out_fd i prev pids w p hi hf] at hnone

/-- When a `pipe` or `fork` fails in a pipeline of two or more stages, `execute`
returns failure with every pipe end closed but with the redirection files it
opened still open: the shell's table at return is the table at the call plus
those files. -/
theorem execute_loop_failure (env : Env) (l : cmdline) (init : FdTable) (reg : JobTable)
    (hn : 2 ≤ l.seq.length)
    (hoi : l.in_ ≠ none → env.open_in_ok = true)
    (hoo : l.out ≠ none → env.open_out_ok = true)
    (hfail : ∃ j, j < l.seq.length ∧
      ((j + 1 < l.seq.length ∧ env.pipe_ok j = false) ∨ env.fork_pid j = none)) :
    (execute env l (World.start init reg)).1 = EXIT_FAILURE ∧
    (∀ path, l.in_ = some path → ∃ fd, init.lookup fd = none ∧
      (execute env l (World.start init reg)).2.fds.lookup fd = some (Obj.inFile path)) ∧
    (∀ path, l.out = some path → ∃ fd, init.lookup fd = none ∧
      (execute env l (World.start init reg)).2.fds.lookup fd = some (Obj.outFile path)) ∧
    (NoPipeEnds init → NoPipeEnds (execute env l (World.start init reg)).2.fds) ∧
    (l.in_ = none → l.out = none →
      ∀ fd, (execute env l (World.start init reg)).2.fds.lookup fd = init.lookup fd) := by
  have hseq : l.seq ≠ [] := by
    intro e
    rw [e] at hn
    simp at hn
  have hne1 : ¬ l.seq.length = 1 := by omega
  rcases execute_resolves env l init reg hseq with
    ⟨-, hwhy⟩ | ⟨in_fd, out_fd, W, hex, res, -, -⟩
  · rcases hwhy with ⟨h1, h2⟩ | ⟨h1, h2⟩
    · rw [hoi h1] at h2; cases h2
    · rw [hoo h1] at h2; cases h2
  · obtain ⟨m, hm⟩ : ∃ m, l.seq.length = m + 1 := ⟨l.seq.length - 1, by omega⟩
    have inv := loopInv_init env l.seq.length res
    have hspec := pipeline_loop_spec env l W.fds in_fd out_fd l.seq.length (redirObjs l)
      (resolved_hin res) (resolved_hout res) hn m 0 in_fd [] W (by omega) inv
    rw [← hm] at hspec
    have hnone : (pipeline_loop env l l.seq.length in_fd out_fd l.seq.length 0 in_fd [] W).1
        = none := by
      rcases hspec with ⟨h, -⟩ | ⟨-, -, -, -, hall⟩
      · exact h
      · obtain ⟨j, hj, hbad⟩ := hfail
        obtain ⟨ha, hb⟩ := hall j (Nat.zero_le j) hj
        rcases hbad with ⟨h1, h2⟩ | h2
        · rw [ha h1] at h2; cases h2
        · exact absurd h2 hb
    have htbl := pipeline_loop_fail_tbl env l W.fds in_fd out_fd l.seq.length (redirObjs l)
      (resolved_hin res) l.seq.length 0 in_fd [] W (by omega) inv hnone
    have hres : execute env l (World.start init reg) =
        (EXIT_FAILURE,
          (pipeline_loop env l l.seq.length in_fd out_fd l.seq.length 0 in_fd [] W).2) := by
      rw [hex]
      simp only [execute_resolved, hne1, if_false]
      cases hl : pipeline_loop env l l.seq.length in_fd out_fd l.seq.length 0 in_fd [] W with
      | mk a b =>
        rw [hl] at hnone
        simp only at hnone
        subst hnone
        rfl
    rw [hres]
    refine ⟨rfl, ?_, ?_, ?_, ?_⟩
    · intro path hp
      obtain ⟨-, b, c⟩ := res.in_some path hp
      exact ⟨in_fd, b, by rw [htbl]; exact c⟩
    · intro path hp
      obtain ⟨-, b, c, -⟩ := res.out_some path hp
      exact ⟨out_fd, b, by rw [htbl]; exact c⟩
    · intro hinit fd k
      show _ ≠ _ ∧ _ ≠ _
      rw [htbl]
      exact noPipeEnds_of_resolved res hinit fd k
    · intro h1 h2 fd
      show FdTable.lookup _ fd = _
      rw [htbl]
      by_cases e1 : fd = in_fd
      · rw [e1, res.in_none h1, lookup_neg _ _ (by decide), lookup_neg _ _ (by decide)]
      · by_cases e2 : fd = out_fd
        · rw [e2, res.out_none h2, lookup_neg _ _ (by decide), lookup_neg _ _ (by decide)]
        · exact res.tbl fd e1 e2

/-- C8, evaluated where it fails: for `cat < in.txt | wc` with `pipe` failing,
`execute` returns failure having closed nothing, and descriptor 3, which it opened
on in.txt, is still open in the shell; for `cat < in.txt | sort | wc > out.txt`
with the fork of stage 1 failing, both redirection files are still open. -/
theorem execute_failure_leaves_redirections_open :
    2 ≤ cat_wc_in.seq.length ∧
    (execute env_pipe_fails cat_wc_in (World.start std_fds JobTable.initial)).1 = EXIT_FAILURE ∧
    (execute env_pipe_fails cat_wc_in (World.start std_fds JobTable.initial)).2.opened
      = [(3, Obj.inFile s_in_txt)] ∧
    (execute env_pipe_fails cat_wc_in (World.start std_fds JobTable.initial)).2.closed = [] ∧
    (execute env_pipe_fails cat_wc_in (World.start std_fds JobTable.initial)).2.fds
      = std_fds ++ [some (Obj.inFile s_in_txt)] ∧
    std_fds.lookup 3 = none ∧
    (execute env_pipe_fails cat_wc_in (World.start std_fds JobTable.initial)).2.fds.lookup 3
      = some (Obj.inFile s_in_txt) ∧
    (execute env_fork_fails cat_sort_wc (World.start std_fds JobTable.initial)).1 = EXIT_FAILURE ∧
    (execute env_fork_fails cat_sort_wc (World.start std_fds JobTable.initial)).2.fds.lookup 3
      = some (Obj.inFile s_in_txt) ∧
    (execute env_fork_fails cat_sort_wc (World.start std_fds JobTable.initial)).2.fds.lookup 4
      = some (Obj.outFile s_out_txt) ∧
    (execute env_fork_fails cat_sort_wc (World.start std_fds JobTable.initial)).2.closed.map
        Prod.snd
      = [some (Obj.pipeWrite 0), some (Obj.pipeRead 1), some (Obj.pipeWrite 1),
         some (Obj.pipeRead 0)] := by
  decide

/-- For a single command, or a pipeline without redirection, a child holds at
`execvp` nothing this call created other than its stdin and stdout: every other
descriptor is closed or is what the shell had at the call. -/
theorem children_hold_only_their_streams (env : Env) (l : cmdline) (init : FdTable)
    (reg : JobTable) (hseq : l.seq ≠ []) (hs : SyscallsSucceed env l)
    (h0 : init.lookup STDIN_FILENO ≠ none) (h1 : init.lookup STDOUT_FILENO ≠ none)
    (hcase : l.seq.length = 1 ∨ (l.in_ = none ∧ l.out = none)) :
    ∀ j c, (execute env l (World.start init reg)).2.children.get? j = some c →
      ∀ fd, fd ≠ STDIN_FILENO → fd ≠ STDOUT_FILENO →
        c.fds.lookup fd = none ∨ c.fds.lookup fd = init.lookup fd := by
  obtain ⟨-, in_fd, out_fd, W, res, post⟩ := execute_succeeds env l init reg hseq hs
  have hstd := stdOpen_of_resolved res h0 h1
  intro j c hc fd hf0 hf1
  have hj : j < l.seq.length := by
    have := (List.get?_eq_some.mp hc).1
    rw [post.kids] at this
    exact this
  obtain ⟨-, -, -, hview⟩ := post.kid j c hc
  rw [hview hstd fd]
  unfold STDIN_FILENO at hf0
  unfold STDOUT_FILENO at hf1
  simp only [child_view, hf0, hf1, if_false]
  split
  · exact Or.inl rfl
  · rename_i hA
    split
    · exact Or.inl rfl
    · rename_i hB
      by_cases e1 : fd = in_fd
      · rcases hcase with h | ⟨h, -⟩
        · exact absurd ⟨by omega, e1⟩ hA
        · rw [e1, res.in_none h]
          exact Or.inl (lookup_neg _ _ (by decide))
      · by_cases e2 : fd = out_fd
        · rcases hcase with h | ⟨-, h⟩
          · exact absurd ⟨by omega, e2⟩ hB
          · rw [e2, res.out_none h]
            exact Or.inl (lookup_neg _ _ (by decide))
        · exact Or.inr (res.tbl fd e1 e2)

/-- C10, evaluated where it fails: for `cat < in.txt | sort | wc > out.txt` with
all calls succeeding, at `execvp` the child of stage 0 still holds descriptor 4
(out.txt), the child of stage 1 holds 3 (in.txt) and 4, and the child of stage 2
holds 3, none of which is its stdin or stdout. -/
theorem pipeline_children_keep_redirection_files :
    SyscallsSucceed env_ok cat_sort_wc ∧
    (execute env_ok cat_sort_wc (World.start std_fds JobTable.initial)).1 = EXIT_SUCCESS ∧
    (execute env_ok cat_sort_wc (World.start std_fds JobTable.initial)).2.opened.take 2
      = [(3, Obj.inFile s_in_txt), (4, Obj.outFile s_out_txt)] ∧
    (execute env_ok cat_sort_wc (World.start std_fds JobTable.initial)).2.children.map
        (fun c => (c.fds.lookup 3, c.fds.lookup 4))
      = [(none, some (Obj.outFile s_out_txt)),
         (some (Obj.inFile s_in_txt), some (Obj.outFile s_out_txt)),
         (some (Obj.inFile s_in_txt), none)] :=
  ⟨syscallsSucceed_env_ok cat_sort_wc, by decide, by decide, by decide⟩

end Shell
